import Mathlib

/-! Tarmac: the key:value host callbacks and the guest test module.

A shallow embedding of `app/kvstore.go` (the host callbacks `Get`, `Set`,
`Delete`, `Keys` of `kvStore`) and of `testdata/main.go` (the waPC guest
handlers `NoHandler` and `Handler`), followed by the properties proved about
them.

Conventions of the embedding.

* A Go `string` and a Go `[]byte` are both finite byte sequences: `Bytes`.
* A Go `error` is modelled by its message; a nil-able error is `Option Bytes`.
* A Go function returning `(x, err)` returns a pair: both components exist on
  every path, as in Go.
* The package-level variables `kv`, `stats` and `log` become an explicit
  `World` that every callback takes and returns.
* The imported libraries (`ffjson`, `fastjson`, `wapc`) are parameters of the
  embedded functions; `encoding/base64` and `fmt` are modelled directly.
-/

set_option linter.dupNamespace false

set_option maxRecDepth 100000

namespace Tarmac

/-! ## Bytes and strings -/

abbrev Byte := Fin 256

abbrev Bytes := List Byte

/-- The bytes of an ASCII string literal of the source. -/
def lit (s : String) : Bytes :=
  s.toList.map (fun c => Fin.ofNat c.toNat)

/-- Decimal rendering of a natural number, most significant digit first,
given enough fuel (`n + 1` always is). -/
def natDigits : Nat → Nat → Bytes
  | 0, _ => []
  | fuel + 1, n =>
    if n < 10 then [Fin.ofNat (48 + n)]
    else natDigits fuel (n / 10) ++ [Fin.ofNat (48 + n % 10)]

/-- The verb `%d` of `fmt` applied to an `int`. -/
def fmtInt (i : Int) : Bytes :=
  if i < 0 then lit "-" ++ natDigits (i.natAbs + 1) i.natAbs
  else natDigits (i.natAbs + 1) i.natAbs

/-! ## `encoding/base64`, `StdEncoding` -/

namespace base64

/-- The alphabet of the standard encoding (`encodeStd`). -/
def encodeStd : Bytes :=
  lit "ABCDEFGHIJKLMNOPQRSTUVWXYZabcdefghijklmnopqrstuvwxyz0123456789+/"

/-- The padding character of the standard encoding (`StdPadding`). -/
def padChar : Byte := 61

/-- Lookup in the encoding table: `enc.encode[v]`. -/
def encode (v : Nat) : Byte := encodeStd.getD v 0

/-- Lookup in the decoding table: `enc.decodeMap[c]`, with `none` for the
entries that hold `0xff`. -/
def decodeMap (c : Byte) : Option Nat :=
  let i := encodeStd.indexOf c
  if i < 64 then some i else none

/-- `StdEncoding.EncodeToString`: three bytes become four characters; a last
group of one or two bytes is padded with `=`. -/
def EncodeToString : Bytes → Bytes
  | [] => []
  | [a] =>
    let val := a.val * 65536
    [encode (val / 262144 % 64), encode (val / 4096 % 64), padChar, padChar]
  | [a, b] =>
    let val := a.val * 65536 + b.val * 256
    [encode (val / 262144 % 64), encode (val / 4096 % 64), encode (val / 64 % 64), padChar]
  | a :: b :: c :: rest =>
    let val := a.val * 65536 + b.val * 256 + c.val
    encode (val / 262144 % 64) :: encode (val / 4096 % 64) :: encode (val / 64 % 64)
      :: encode (val % 64) :: EncodeToString rest

/-- The value `CorruptInputError(n)` as an error message. -/
def CorruptInputError (n : Nat) : Bytes :=
  lit "illegal base64 data at input byte " ++ natDigits (n + 1) n

/-- The loops of `decodeQuantum` that step over line feeds and carriage
returns: the rest of the input and the index of its first byte. -/
def skipNewlines : Bytes → Nat → Bytes × Nat
  | [], si => ([], si)
  | c :: rest, si =>
    if c.val = 10 ∨ c.val = 13 then skipNewlines rest (si + 1) else (c :: rest, si)

/-- The 24-bit value of a quantum: `dbuf[0]<<18 | dbuf[1]<<12 | dbuf[2]<<6 | dbuf[3]`,
missing sextets being zero. -/
def quantumVal (q : List Nat) : Nat :=
  q.getD 0 0 * 262144 + q.getD 1 0 * 4096 + q.getD 2 0 * 64 + q.getD 3 0

/-- The bytes a quantum of `dlen` sextets contributes: the first `dlen - 1`
bytes of the 24-bit value. -/
def quantumBytes (q : List Nat) (dlen : Nat) : Bytes :=
  let val := quantumVal q
  ([Fin.ofNat (val / 65536), Fin.ofNat (val / 256), Fin.ofNat val] : Bytes).take (dlen - 1)

/-- The end of a quantum closed by padding: after the padding has been read,
newlines are skipped and anything left is trailing garbage; the bytes of the
quantum are produced in both cases. -/
def finishPadded (rest : Bytes) (si : Nat) (q : List Nat) (out : Bytes) : Bytes × Option Bytes :=
  let (rest1, si1) := skipNewlines rest si
  let err := if rest1.isEmpty then none else some (CorruptInputError si1)
  (out ++ quantumBytes q q.length, err)

/-- `Decode` with `decodeQuantum` inlined: `src` is the input still to read,
`si` the index of its first byte, `q` the sextets of the current quantum and
`out` the bytes produced so far. -/
def decodeFrom : Bytes → Nat → List Nat → Bytes → Bytes × Option Bytes
  | [], si, q, out =>
    if q.length = 0 then (out, none) else (out, some (CorruptInputError (si - q.length)))
  | c :: rest, si, q, out =>
    match decodeMap c with
    | some v =>
      if q.length = 3 then decodeFrom rest (si + 1) [] (out ++ quantumBytes (q ++ [v]) 4)
      else decodeFrom rest (si + 1) (q ++ [v]) out
    | none =>
      if c.val = 10 ∨ c.val = 13 then decodeFrom rest (si + 1) q out
      else if c ≠ padChar then (out, some (CorruptInputError si))
      else if q.length < 2 then (out, some (CorruptInputError si))
      else if q.length = 2 then
        match skipNewlines rest (si + 1) with
        | ([], si1) => (out, some (CorruptInputError si1))
        | (c1 :: rest1, si1) =>
          if c1 ≠ padChar then (out, some (CorruptInputError (si1 - 1)))
          else finishPadded rest1 (si1 + 1) q out
      else finishPadded rest (si + 1) q out

/-- `StdEncoding.DecodeString`: the decoded bytes and the error. -/
def DecodeString (s : Bytes) : Bytes × Option Bytes :=
  decodeFrom s 0 [] []

end base64

/-! ## The types of package `tarmac` -/

/-- Modelled from the spec: the declaration of `tarmac.Status` is not among the
sources; the spec gives a status a numeric code and a message, and the guest
module writes them as the JSON fields `code` and `status`. -/
structure Status where
  Code : Int
  Status : Bytes
  deriving DecidableEq

/-- Modelled from the spec: `tarmac.KVStoreGet`, the request of `get`, `{key}`. -/
structure KVStoreGet where
  Key : Bytes
  deriving DecidableEq

/-- Modelled from the spec: `tarmac.KVStoreGetResponse`, `{status, data}` with
the data held as base64 text. -/
structure KVStoreGetResponse where
  Status : Status
  Data : Bytes
  deriving DecidableEq

/-- Modelled from the spec: `tarmac.KVStoreSet`, the request of `set`,
`{key, data}` with the data held as base64 text. -/
structure KVStoreSet where
  Key : Bytes
  Data : Bytes
  deriving DecidableEq

/-- Modelled from the spec: `tarmac.KVStoreSetResponse`, `{status}`. -/
structure KVStoreSetResponse where
  Status : Status
  deriving DecidableEq

/-- Modelled from the spec: `tarmac.KVStoreDelete`, the request of `delete`, `{key}`. -/
structure KVStoreDelete where
  Key : Bytes
  deriving DecidableEq

/-- Modelled from the spec: `tarmac.KVStoreDeleteResponse`, `{status}`. -/
structure KVStoreDeleteResponse where
  Status : Status
  deriving DecidableEq

/-- Modelled from the spec: `tarmac.KVStoreKeysResponse`, `{status, keys}` with
the keys an ordered sequence of strings. -/
structure KVStoreKeysResponse where
  Status : Status
  Keys : List Bytes
  deriving DecidableEq

/-! ## What the callbacks are given: the JSON library, the store, the world -/

/-- The two functions of `ffjson` the callbacks call, at the types they are
called at. `Unmarshal` gives the request as it stands after the call on a zero
value, and the error; `Marshal` gives the buffer and the error. -/
structure FFJson where
  UnmarshalGet : Bytes → KVStoreGet × Option Bytes
  UnmarshalSet : Bytes → KVStoreSet × Option Bytes
  UnmarshalDelete : Bytes → KVStoreDelete × Option Bytes
  MarshalGet : KVStoreGetResponse → Bytes × Option Bytes
  MarshalSet : KVStoreSetResponse → Bytes × Option Bytes
  MarshalDelete : KVStoreDeleteResponse → Bytes × Option Bytes
  MarshalKeys : KVStoreKeysResponse → Bytes × Option Bytes

/-- Modelled from the spec: the storage engine behind the package variable `kv`
is not among the sources. It exposes `Get(key)`, `Set(key, bytes)`,
`Delete(key)` and `Keys()`, each possibly failing; `σ` is the state of the
engine. -/
structure KV (σ : Type) where
  Get : Bytes → σ → (Bytes × Option Bytes) × σ
  Set : Bytes → Bytes → σ → Option Bytes × σ
  Delete : Bytes → σ → Option Bytes × σ
  Keys : σ → (List Bytes × Option Bytes) × σ

/-- What a callback can change: the state of the store behind `kv`, the labels
of the observations made on `stats.kvstore` (oldest first; the observed
duration is wall-clock time and is left out), and the lines written by
`log.Errorf`. -/
structure World (σ : Type) where
  kv : σ
  stats : List Bytes
  log : List Bytes

/-- The call `stats.kvstore.WithLabelValues(label).Observe(...)`. -/
def World.Observe {σ : Type} (w : World σ) (label : Bytes) : World σ :=
  { w with stats := w.stats ++ [label] }

/-- The call `log.Errorf(...)` with the formatted line. -/
def World.Errorf {σ : Type} (w : World σ) (line : Bytes) : World σ :=
  { w with log := w.log ++ [line] }

/-! ## `app/kvstore.go` -/

namespace kvStore

/-- The response `r` of `Get` as it is handed to `ffjson.Marshal`
(`kvstore.go`, lines 20 to 45), and the world after the store was consulted. -/
def GetR {σ : Type} (J : FFJson) (K : KV σ) (b : Bytes) (w : World σ) :
    KVStoreGetResponse × World σ :=
  let r : KVStoreGetResponse := { Status := { Code := 200, Status := lit "OK" }, Data := [] }
  let (rq, err) := J.UnmarshalGet b
  let r : KVStoreGetResponse :=
    if err ≠ none then { r with Status := { Code := 400, Status := lit "Error Parsing Input" } }
    else r
  if r.Status.Code = 200 then
    let ((data, err), s) := K.Get rq.Key w.kv
    let r : KVStoreGetResponse :=
      match err with
      | some e =>
        { r with Status := { Code := 404,
                             Status := lit "Unable to fetch key " ++ rq.Key ++ lit " - " ++ e } }
      | none => r
    let r : KVStoreGetResponse := { r with Data := base64.EncodeToString data }
    (r, { w with kv := s })
  else (r, w)

/-- The callback `kvStore.Get`. -/
def Get {σ : Type} (J : FFJson) (K : KV σ) (b : Bytes) (w : World σ) :
    (Bytes × Option Bytes) × World σ :=
  let (r, w) := GetR J K b w
  let (rsp, err) := J.MarshalGet r
  match err with
  | some e =>
    let w := w.Errorf (lit "Unable to marshal kvstore:get response - " ++ e)
    let w := w.Observe (lit "get")
    (([], some (lit "unable to marshal kvstore:get response")), w)
  | none =>
    if r.Status.Code = 200 then
      let w := w.Observe (lit "get")
      ((rsp, none), w)
    else
      let w := w.Observe (lit "get")
      ((rsp, some r.Status.Status), w)

/-- The response `r` of `Set` as it is handed to `ffjson.Marshal`
(`kvstore.go`, lines 67 to 95), and the world after the store was called. -/
def SetR {σ : Type} (J : FFJson) (K : KV σ) (b : Bytes) (w : World σ) :
    KVStoreSetResponse × World σ :=
  let r : KVStoreSetResponse := { Status := { Code := 200, Status := lit "OK" } }
  let (rq, err) := J.UnmarshalSet b
  let r : KVStoreSetResponse :=
    if err ≠ none then { Status := { Code := 400, Status := lit "Error Parsing Input" } }
    else r
  let (data, err) := base64.DecodeString rq.Data
  let r : KVStoreSetResponse :=
    match err with
    | some e => { Status := { Code := 400, Status := lit "Unable to decode data - " ++ e } }
    | none => r
  if r.Status.Code = 200 then
    let (err, s) := K.Set rq.Key data w.kv
    let r : KVStoreSetResponse :=
      match err with
      | some e =>
        { Status := { Code := 500,
                      Status := lit "Unable to store data using key " ++ rq.Key ++ lit " - " ++ e } }
      | none => r
    (r, { w with kv := s })
  else (r, w)

/-- The callback `kvStore.Set`. -/
def Set {σ : Type} (J : FFJson) (K : KV σ) (b : Bytes) (w : World σ) :
    (Bytes × Option Bytes) × World σ :=
  let (r, w) := SetR J K b w
  let (rsp, err) := J.MarshalSet r
  match err with
  | some e =>
    let w := w.Errorf (lit "Unable to marshal kvstore:set response - " ++ e)
    let w := w.Observe (lit "set")
    (([], some (lit "unable to marshal kvstore:set response")), w)
  | none =>
    if r.Status.Code = 200 then
      let w := w.Observe (lit "set")
      ((rsp, none), w)
    else
      let w := w.Observe (lit "set")
      ((rsp, some r.Status.Status), w)

/-- The response `r` of `Delete` as it is handed to `ffjson.Marshal`
(`kvstore.go`, lines 117 to 138), and the world after the store was called. -/
def DeleteR {σ : Type} (J : FFJson) (K : KV σ) (b : Bytes) (w : World σ) :
    KVStoreDeleteResponse × World σ :=
  let r : KVStoreDeleteResponse := { Status := { Code := 200, Status := lit "OK" } }
  let (rq, err) := J.UnmarshalDelete b
  let r : KVStoreDeleteResponse :=
    if err ≠ none then { Status := { Code := 400, Status := lit "Error Parsing Input" } }
    else r
  if r.Status.Code = 200 then
    let (err, s) := K.Delete rq.Key w.kv
    let r : KVStoreDeleteResponse :=
      match err with
      | some e =>
        { Status := { Code := 404,
                      Status := lit "Unable to delete key " ++ rq.Key ++ lit " - " ++ e } }
      | none => r
    (r, { w with kv := s })
  else (r, w)

/-- The callback `kvStore.Delete`. -/
def Delete {σ : Type} (J : FFJson) (K : KV σ) (b : Bytes) (w : World σ) :
    (Bytes × Option Bytes) × World σ :=
  let (r, w) := DeleteR J K b w
  let (rsp, err) := J.MarshalDelete r
  match err with
  | some e =>
    let w := w.Errorf (lit "Unable to marshal kvstore:delete response - " ++ e)
    let w := w.Observe (lit "delete")
    (([], some (lit "unable to marshal kvstore:delete response")), w)
  | none =>
    if r.Status.Code = 200 then
      let w := w.Observe (lit "delete")
      ((rsp, none), w)
    else
      let w := w.Observe (lit "delete")
      ((rsp, some r.Status.Status), w)

/-- The response `r` of `Keys` as it is handed to `ffjson.Marshal`
(`kvstore.go`, lines 159 to 171), and the world after the store was called.
The request buffer is not read. -/
def KeysR {σ : Type} (K : KV σ) (_b : Bytes) (w : World σ) :
    KVStoreKeysResponse × World σ :=
  let r : KVStoreKeysResponse := { Status := { Code := 200, Status := lit "OK" }, Keys := [] }
  let ((keys, err), s) := K.Keys w.kv
  let r : KVStoreKeysResponse := { r with Keys := keys }
  let r : KVStoreKeysResponse :=
    match err with
    | some e => { r with Status := { Code := 500, Status := lit "Unable to fetch keys - " ++ e } }
    | none => r
  (r, { w with kv := s })

/-- The callback `kvStore.Keys`. The marshalling failure is logged and reported
under the name of `delete`, as in the source. -/
def Keys {σ : Type} (J : FFJson) (K : KV σ) (b : Bytes) (w : World σ) :
    (Bytes × Option Bytes) × World σ :=
  let (r, w) := KeysR K b w
  let (rsp, err) := J.MarshalKeys r
  match err with
  | some e =>
    let w := w.Errorf (lit "Unable to marshal kvstore:delete response - " ++ e)
    let w := w.Observe (lit "keys")
    (([], some (lit "unable to marshal kvstore:delete response")), w)
  | none =>
    if r.Status.Code = 200 then
      let w := w.Observe (lit "keys")
      ((rsp, none), w)
    else
      let w := w.Observe (lit "keys")
      ((rsp, some r.Status.Status), w)

end kvStore

/-! ## `testdata/main.go` -/

/-- The two functions of `fastjson` the guest calls: `ParseBytes`, which gives
a value or an error, and `GetStringBytes` on a value with one key. -/
structure FastJson (V : Type) where
  ParseBytes : Bytes → Except Bytes V
  GetStringBytes : V → Bytes → Bytes

/-- The arguments of one `wapc.HostCall`. -/
structure Call where
  Namespace : Bytes
  Capability : Bytes
  Operation : Bytes
  Payload : Bytes
  deriving DecidableEq

/-- What the guest can change: the state of the host behind `wapc.HostCall`,
and the call-outs made so far, oldest first. -/
structure Guest (τ : Type) where
  host : τ
  calls : List Call

/-- The call `wapc.HostCall(...)`: `H` is the answer of the host, a buffer and an
error, and the call is recorded. -/
def HostCall {τ : Type} (H : Call → τ → (Bytes × Option Bytes) × τ) (c : Call) (g : Guest τ) :
    (Bytes × Option Bytes) × Guest τ :=
  let (r, h) := H c g.host
  (r, { host := h, calls := g.calls ++ [c] })

/-- The handler `NoHandler`. -/
def NoHandler (_payload : Bytes) : Bytes × Option Bytes :=
  (lit "\x7b\"status\":\x7b\"code\":503,\"status\":\"Not Implemented\"\x7d\x7d", none)

/-- The request the handler sends to `kvstore` `set`. -/
def Handler.setRequest : Bytes :=
  lit "\x7b\"key\":\"test-data\",\"data\":\"aSBhbSBhIGxpdHRsZSB0ZWFwb3Q=\"\x7d"

/-- The handler `Handler`. -/
def Handler {V τ : Type} (F : FastJson V) (H : Call → τ → (Bytes × Option Bytes) × τ)
    (payload : Bytes) (g : Guest τ) : (Bytes × Option Bytes) × Guest τ :=
  match F.ParseBytes payload with
  | .error err =>
    ((lit "\x7b\"status\":\x7b\"code\":500,\"status\":\"Failed to call parse json - " ++ err
        ++ lit "\"\x7d\x7d", none), g)
  | .ok rq =>
    let (s, err) := base64.DecodeString (F.GetStringBytes rq (lit "payload"))
    match err with
    | some err =>
      ((lit "\x7b\"status\":\x7b\"code\":500,\"status\":\"Failed to perform base64 decode - "
          ++ err ++ lit "\"\x7d\x7d", none), g)
    | none =>
      let b : Bytes := s
      let ((_, err), g) := HostCall H ⟨lit "tarmac", lit "logger", lit "debug", payload⟩ g
      match err with
      | some err =>
        ((lit "\x7b\"status\":\x7b\"code\":500,\"status\":\"Failed to call host callback - "
            ++ err ++ lit "\"\x7d\x7d", none), g)
      | none =>
        let ((_, err), g) :=
          HostCall H ⟨lit "tarmac", lit "kvstore", lit "set", Handler.setRequest⟩ g
        match err with
        | some err =>
          ((lit "\x7b\"status\":\x7b\"code\":500,\"status\":\"Failed to call host callback - "
              ++ err ++ lit "\"\x7d\x7d", none), g)
        | none =>
          ((lit "\x7b\"payload\":\"" ++ base64.EncodeToString b
              ++ lit "\",\"status\":\x7b\"code\":200,\"status\":\"Success\"\x7d\x7d", none), g)

/-! ## A reference JSON library

The callbacks and the handler are embedded over any JSON library. This
section gives one: the grammar of RFC 8259 over bytes, the decoding of the
request types and the encoding of the response types. `Json.valid` is the
meaning of "valid JSON" in the statements below. -/

namespace Json

/-- A JSON value; a number keeps its text. -/
inductive Value where
  | null : Value
  | bool : Bool → Value
  | number : Bytes → Value
  | string : Bytes → Value
  | array : List Value → Value
  | object : List (Bytes × Value) → Value

/-- Insignificant whitespace: space, tab, line feed, carriage return. -/
def isWS (c : Byte) : Bool :=
  c.val = 32 || c.val = 9 || c.val = 10 || c.val = 13

/-- Drop leading whitespace. -/
def skipWS : Bytes → Bytes
  | [] => []
  | c :: rest => if isWS c then skipWS rest else c :: rest

/-- The value of a hexadecimal digit. -/
def hexVal (c : Byte) : Option Nat :=
  if 48 ≤ c.val ∧ c.val ≤ 57 then some (c.val - 48)
  else if 97 ≤ c.val ∧ c.val ≤ 102 then some (c.val - 87)
  else if 65 ≤ c.val ∧ c.val ≤ 70 then some (c.val - 55)
  else none

/-- The code unit written by four hexadecimal digits. -/
def hex4 (a b c d : Byte) : Option Nat :=
  match hexVal a, hexVal b, hexVal c, hexVal d with
  | some x, some y, some z, some w => some (x * 4096 + y * 256 + z * 16 + w)
  | _, _, _, _ => none

/-- UTF-8 of a code point; a surrogate becomes U+FFFD. -/
def utf8 (cp : Nat) : Bytes :=
  if cp < 128 then [Fin.ofNat cp]
  else if cp < 2048 then [Fin.ofNat (192 + cp / 64), Fin.ofNat (128 + cp % 64)]
  else if 55296 ≤ cp ∧ cp < 57344 then [239, 191, 189]
  else if cp < 65536 then
    [Fin.ofNat (224 + cp / 4096), Fin.ofNat (128 + cp / 64 % 64), Fin.ofNat (128 + cp % 64)]
  else
    [Fin.ofNat (240 + cp / 262144), Fin.ofNat (128 + cp / 4096 % 64),
      Fin.ofNat (128 + cp / 64 % 64), Fin.ofNat (128 + cp % 64)]

/-- The low half of a surrogate pair, when the input starts with one. -/
def lowSurrogate : Bytes → Option (Nat × Bytes)
  | b :: u :: h1 :: h2 :: h3 :: h4 :: rest =>
    if b.val = 92 ∧ u.val = 117 then
      match hex4 h1 h2 h3 h4 with
      | some lo => if 56320 ≤ lo ∧ lo < 57344 then some (lo, rest) else none
      | none => none
    else none
  | _ => none

/-- One escape sequence, after the backslash: the bytes it stands for and the
input after it. A high surrogate followed by a low one is one code point. -/
def unescape : Bytes → Option (Bytes × Bytes)
  | [] => none
  | e :: rest =>
    if e.val = 117 then
      match rest with
      | h1 :: h2 :: h3 :: h4 :: rest1 =>
        match hex4 h1 h2 h3 h4 with
        | none => none
        | some cu =>
          if 55296 ≤ cu ∧ cu < 56320 then
            match lowSurrogate rest1 with
            | some (lo, rest2) => some (utf8 (65536 + (cu - 55296) * 1024 + (lo - 56320)), rest2)
            | none => some (utf8 cu, rest1)
          else some (utf8 cu, rest1)
      | _ => none
    else if e.val = 34 ∨ e.val = 92 ∨ e.val = 47 then some ([e], rest)
    else if e.val = 98 then some ([8], rest)
    else if e.val = 102 then some ([12], rest)
    else if e.val = 110 then some ([10], rest)
    else if e.val = 114 then some ([13], rest)
    else if e.val = 116 then some ([9], rest)
    else none

/-- The body of a string, after the opening quote, reading at most `fuel`
characters or escapes: the decoded bytes and the input after the closing
quote. Bytes outside ASCII are kept as they are. -/
def parseStringN : Nat → Bytes → Option (Bytes × Bytes)
  | 0, _ => none
  | fuel + 1, src =>
    match src with
    | [] => none
    | c :: rest =>
      if c.val = 34 then some ([], rest)
      else if c.val = 92 then
        match unescape rest with
        | none => none
        | some (bs, rest1) => (parseStringN fuel rest1).map (fun p => (bs ++ p.1, p.2))
      else if c.val < 32 then none
      else (parseStringN fuel rest).map (fun p => (c :: p.1, p.2))

/-- The body of a string, after the opening quote. -/
def parseString (src : Bytes) : Option (Bytes × Bytes) :=
  parseStringN src.length src

/-- The leading decimal digits, and what follows them. -/
def digits : Bytes → Bytes × Bytes
  | [] => ([], [])
  | c :: rest =>
    if 48 ≤ c.val ∧ c.val ≤ 57 then ((digits rest).1.cons c, (digits rest).2)
    else ([], c :: rest)

/-- The integer part of a number: `0`, or a nonzero digit and more digits. -/
def parseInt : Bytes → Option (Bytes × Bytes)
  | [] => none
  | c :: rest =>
    if c.val = 48 then some ([c], rest)
    else if 49 ≤ c.val ∧ c.val ≤ 57 then some (c :: (digits rest).1, (digits rest).2)
    else none

/-- An optional fraction: `.` and at least one digit. -/
def parseFrac : Bytes → Option (Bytes × Bytes)
  | [] => some ([], [])
  | c :: rest =>
    if c.val = 46 then
      if (digits rest).1.isEmpty then none else some (c :: (digits rest).1, (digits rest).2)
    else some ([], c :: rest)

/-- An optional exponent: `e` or `E`, an optional sign, at least one digit. -/
def parseExp : Bytes → Option (Bytes × Bytes)
  | [] => some ([], [])
  | c :: rest =>
    if c.val = 101 ∨ c.val = 69 then
      match rest with
      | [] => none
      | s :: rest1 =>
        if s.val = 43 ∨ s.val = 45 then
          if (digits rest1).1.isEmpty then none
          else some (c :: s :: (digits rest1).1, (digits rest1).2)
        else if (digits (s :: rest1)).1.isEmpty then none
        else some (c :: (digits (s :: rest1)).1, (digits (s :: rest1)).2)
    else some ([], c :: rest)

/-- A number: its text and what follows it. -/
def parseNumber (src : Bytes) : Option (Bytes × Bytes) :=
  let signed : Bytes × Bytes :=
    match src with
    | [] => ([], [])
    | c :: rest => if c.val = 45 then ([c], rest) else ([], c :: rest)
  match parseInt signed.2 with
  | none => none
  | some (i, s1) =>
    match parseFrac s1 with
    | none => none
    | some (f, s2) =>
      match parseExp s2 with
      | none => none
      | some (e, s3) => some (signed.1 ++ i ++ f ++ e, s3)

/-- The elements of an array after the first `[`, the input standing at a
value: `pv` reads one value; the list ends at `]`. -/
def parseElements (pv : Bytes → Option (Value × Bytes)) :
    Nat → Bytes → Option (List Value × Bytes)
  | 0, _ => none
  | n + 1, src =>
    match pv src with
    | none => none
    | some (v, rest) =>
      match skipWS rest with
      | [] => none
      | c :: rest1 =>
        if c.val = 93 then some ([v], rest1)
        else if c.val = 44 then (parseElements pv n rest1).map (fun p => (v :: p.1, p.2))
        else none

/-- The members of an object, the input standing before a key: `pv` reads one
value; the list ends at `}`. -/
def parseMembers (pv : Bytes → Option (Value × Bytes)) :
    Nat → Bytes → Option (List (Bytes × Value) × Bytes)
  | 0, _ => none
  | n + 1, src =>
    match skipWS src with
    | [] => none
    | q :: rest =>
      if q.val = 34 then
        match parseString rest with
        | none => none
        | some (k, rest1) =>
          match skipWS rest1 with
          | [] => none
          | colon :: rest2 =>
            if colon.val = 58 then
              match pv rest2 with
              | none => none
              | some (v, rest3) =>
                match skipWS rest3 with
                | [] => none
                | c :: rest4 =>
                  if c.val = 125 then some ([(k, v)], rest4)
                  else if c.val = 44 then
                    (parseMembers pv n rest4).map (fun p => ((k, v) :: p.1, p.2))
                  else none
            else none
      else none

/-- One value and what follows it; the fuel bounds the nesting. -/
def parseValue : Nat → Bytes → Option (Value × Bytes)
  | 0, _ => none
  | fuel + 1, src =>
    match skipWS src with
    | [] => none
    | c :: rest =>
      if c.val = 123 then
        match skipWS rest with
        | [] => none
        | c1 :: rest1 =>
          if c1.val = 125 then some (Value.object [], rest1)
          else (parseMembers (parseValue fuel) rest.length (c1 :: rest1)).map
            (fun p => (Value.object p.1, p.2))
      else if c.val = 91 then
        match skipWS rest with
        | [] => none
        | c1 :: rest1 =>
          if c1.val = 93 then some (Value.array [], rest1)
          else (parseElements (parseValue fuel) rest.length (c1 :: rest1)).map
            (fun p => (Value.array p.1, p.2))
      else if c.val = 34 then (parseString rest).map (fun p => (Value.string p.1, p.2))
      else if c :: rest.take 3 = lit "null" then some (Value.null, rest.drop 3)
      else if c :: rest.take 3 = lit "true" then some (Value.bool true, rest.drop 3)
      else if c :: rest.take 4 = lit "false" then some (Value.bool false, rest.drop 4)
      else (parseNumber (c :: rest)).map (fun p => (Value.number p.1, p.2))

/-- A whole text: one value between optional whitespace. -/
def parse (src : Bytes) : Option Value :=
  match parseValue (src.length + 1) src with
  | none => none
  | some (v, rest) => if (skipWS rest).isEmpty then some v else none

/-- The text is valid JSON. -/
def valid (src : Bytes) : Bool := (parse src).isSome

/-- The constant `MaxDepth` of `fastjson`: the deepest nesting its parser
accepts. -/
def MaxDepth : Nat := 300

/-- A whole text read with the nesting limit of `fastjson`: a value nested
deeper than `MaxDepth` is refused. -/
def parseMaxDepth (src : Bytes) : Option Value :=
  match parseValue MaxDepth src with
  | none => none
  | some (v, rest) => if (skipWS rest).isEmpty then some v else none

/-- The member of an object with the given name: the last one when the name
is repeated, as a decoder that assigns fields in order leaves it. -/
def lastMember (key : Bytes) : List (Bytes × Value) → Option Value
  | [] => none
  | (k, v) :: ms =>
    match lastMember key ms with
    | some x => some x
    | none => if k = key then some v else none

/-- The first member of an object with the given name. -/
def firstMember (key : Bytes) : List (Bytes × Value) → Option Value
  | [] => none
  | (k, v) :: ms => if k = key then some v else firstMember key ms

/-- Decoding a member into a string field: absent or `null` leaves the field,
a string sets it, anything else is a type error and leaves it. -/
def stringField (key : Bytes) (ms : List (Bytes × Value)) (old : Bytes) : Bytes × Option Bytes :=
  match lastMember key ms with
  | none => (old, none)
  | some Value.null => (old, none)
  | some (Value.string s) => (s, none)
  | some _ => (old, some (lit "json: cannot unmarshal value into Go struct field of type string"))

/-- The first error of two. -/
def firstError (a b : Option Bytes) : Option Bytes :=
  match a with
  | some e => some e
  | none => b

/-- The hexadecimal digit of a value below sixteen, in lower case. -/
def hexDigit (n : Nat) : Byte :=
  if n < 10 then Fin.ofNat (48 + n) else Fin.ofNat (87 + n)

/-- The text of one byte inside a string. -/
def escapeByte (c : Byte) : Bytes :=
  if c.val = 34 then lit "\\\""
  else if c.val = 92 then lit "\\\\"
  else if c.val = 10 then lit "\\n"
  else if c.val = 13 then lit "\\r"
  else if c.val = 9 then lit "\\t"
  else if c.val < 32 ∨ c.val = 60 ∨ c.val = 62 ∨ c.val = 38 then
    lit "\\u00" ++ [hexDigit (c.val / 16), hexDigit (c.val % 16)]
  else [c]

/-- A string in quotes. -/
def encodeString (s : Bytes) : Bytes :=
  lit "\"" ++ (s.map escapeByte).flatten ++ lit "\""

/-- The text of a status: `code` and `status`. -/
def encodeStatus (s : Status) : Bytes :=
  lit "\x7b\"code\":" ++ fmtInt s.Code ++ lit ",\"status\":" ++ encodeString s.Status ++ lit "\x7d"

/-- The elements of an array of strings, separated by commas. -/
def encodeStrings : List Bytes → Bytes
  | [] => []
  | [s] => encodeString s
  | s :: t :: rest => encodeString s ++ lit "," ++ encodeStrings (t :: rest)

/-- The text of a request of `get` or `delete` with the given key. -/
def encodeKeyRequest (key : Bytes) : Bytes :=
  lit "\x7b\"key\":" ++ encodeString key ++ lit "\x7d"

/-- The text of a request of `set` with the given key and data. -/
def encodeSetRequest (key data : Bytes) : Bytes :=
  lit "\x7b\"key\":" ++ encodeString key ++ lit ",\"data\":" ++ encodeString data ++ lit "\x7d"

end Json

/-- The reference library at the types of the callbacks: decoding fails on a
text that is not valid JSON and on a value of the wrong type; encoding never
fails. -/
def refFFJson : FFJson where
  UnmarshalGet := fun b =>
    match Json.parse b with
    | none => ({ Key := [] }, some (lit "invalid character in JSON input"))
    | some (Json.Value.object ms) =>
      let k := Json.stringField (lit "key") ms []
      ({ Key := k.1 }, k.2)
    | some Json.Value.null => ({ Key := [] }, none)
    | some _ => ({ Key := [] }, some (lit "json: cannot unmarshal value into Go value"))
  UnmarshalSet := fun b =>
    match Json.parse b with
    | none => ({ Key := [], Data := [] }, some (lit "invalid character in JSON input"))
    | some (Json.Value.object ms) =>
      let k := Json.stringField (lit "key") ms []
      let d := Json.stringField (lit "data") ms []
      ({ Key := k.1, Data := d.1 }, Json.firstError k.2 d.2)
    | some Json.Value.null => ({ Key := [], Data := [] }, none)
    | some _ => ({ Key := [], Data := [] }, some (lit "json: cannot unmarshal value into Go value"))
  UnmarshalDelete := fun b =>
    match Json.parse b with
    | none => ({ Key := [] }, some (lit "invalid character in JSON input"))
    | some (Json.Value.object ms) =>
      let k := Json.stringField (lit "key") ms []
      ({ Key := k.1 }, k.2)
    | some Json.Value.null => ({ Key := [] }, none)
    | some _ => ({ Key := [] }, some (lit "json: cannot unmarshal value into Go value"))
  MarshalGet := fun r =>
    (lit "\x7b\"status\":" ++ Json.encodeStatus r.Status ++ lit ",\"data\":"
      ++ Json.encodeString r.Data ++ lit "\x7d", none)
  MarshalSet := fun r => (lit "\x7b\"status\":" ++ Json.encodeStatus r.Status ++ lit "\x7d", none)
  MarshalDelete := fun r =>
    (lit "\x7b\"status\":" ++ Json.encodeStatus r.Status ++ lit "\x7d", none)
  MarshalKeys := fun r =>
    (lit "\x7b\"status\":" ++ Json.encodeStatus r.Status ++ lit ",\"keys\":["
      ++ Json.encodeStrings r.Keys ++ lit "]\x7d", none)

/-- The reference library at the guest: `ParseBytes` accepts valid JSON nested
no deeper than `MaxDepth` (the text of its error is not modelled), and
`GetStringBytes` gives the string under the key, or nothing. -/
def refFastJson : FastJson Json.Value where
  ParseBytes := fun b =>
    match Json.parseMaxDepth b with
    | none => Except.error (lit "cannot parse JSON")
    | some v => Except.ok v
  GetStringBytes := fun v key =>
    match v with
    | Json.Value.object ms =>
      match Json.firstMember key ms with
      | some (Json.Value.string s) => s
      | _ => []
    | _ => []

/-- What the statements below assume of a JSON library when they speak of
valid JSON or of the returned buffer: decoding a request reports an error on
a text that is not valid JSON, and encoding a response of the callbacks does
not fail and gives valid JSON. -/
structure FFJson.Lawful (J : FFJson) : Prop where
  unmarshalGet_invalid : ∀ b, Json.valid b = false → (J.UnmarshalGet b).2 ≠ none
  unmarshalSet_invalid : ∀ b, Json.valid b = false → (J.UnmarshalSet b).2 ≠ none
  unmarshalDelete_invalid : ∀ b, Json.valid b = false → (J.UnmarshalDelete b).2 ≠ none
  marshalGet_ok : ∀ r, (J.MarshalGet r).2 = none ∧ Json.valid (J.MarshalGet r).1 = true
  marshalSet_ok : ∀ r, (J.MarshalSet r).2 = none ∧ Json.valid (J.MarshalSet r).1 = true
  marshalDelete_ok : ∀ r, (J.MarshalDelete r).2 = none ∧ Json.valid (J.MarshalDelete r).1 = true
  marshalKeys_ok : ∀ r, (J.MarshalKeys r).2 = none ∧ Json.valid (J.MarshalKeys r).1 = true

/-! ## The store of the spec -/

/-- Modelled from the spec: the storage engine is not among the sources. What
the properties of the spec assume of it, with `live s` the ordered keys the store
holds in state `s`: `Get` and `Delete` fail on a key the store does not hold,
a successful `Delete` removes the key, a successful `Set` adds it, and a
successful `Keys` lists the keys held, in order. -/
structure KV.Contract {σ : Type} (K : KV σ) (live : σ → List Bytes) : Prop where
  get_missing : ∀ k s, k ∉ live s → (K.Get k s).1.2 ≠ none
  delete_missing : ∀ k s, k ∉ live s → (K.Delete k s).1 ≠ none
  delete_removes : ∀ k s, (K.Delete k s).1 = none → k ∉ live (K.Delete k s).2
  set_adds : ∀ k v s, (K.Set k v s).1 = none → k ∈ live (K.Set k v s).2
  keys_lists : ∀ s, (K.Keys s).1.2 = none → (K.Keys s).1.1 = live s

/-- Modelled from the spec: a store that keeps what is set accepts every `Set`
and answers a `Get` of the same key, made next, with the bytes that were set. -/
def KV.KeepsWhatIsSet {σ : Type} (K : KV σ) : Prop :=
  ∀ k v s, (K.Set k v s).1 = none ∧ (K.Get k (K.Set k v s).2).1 = (v, none)

namespace memKV

/-- The value stored under a key. -/
def find (k : Bytes) : List (Bytes × Bytes) → Option Bytes
  | [] => none
  | (k1, v1) :: rest => if k1 = k then some v1 else find k rest

/-- Store a value: in place when the key is held, at the end otherwise. -/
def put (k v : Bytes) : List (Bytes × Bytes) → List (Bytes × Bytes)
  | [] => [(k, v)]
  | (k1, v1) :: rest => if k1 = k then (k, v) :: rest else (k1, v1) :: put k v rest

/-- Drop a key. -/
def remove (k : Bytes) : List (Bytes × Bytes) → List (Bytes × Bytes)
  | [] => []
  | (k1, v1) :: rest => if k1 = k then remove k rest else (k1, v1) :: remove k rest

/-- The keys held, in order. -/
def live (s : List (Bytes × Bytes)) : List Bytes := s.map Prod.fst

end memKV

/-- Modelled from the spec: an in-memory store in the order of insertion, in
which `Get` and `Delete` of a key that is not held fail. -/
def memKV : KV (List (Bytes × Bytes)) where
  Get := fun k s =>
    match memKV.find k s with
    | some v => ((v, none), s)
    | none => (([], some (lit "key not found")), s)
  Set := fun k v s => (none, memKV.put k v s)
  Delete := fun k s =>
    match memKV.find k s with
    | some _ => (none, memKV.remove k s)
    | none => (some (lit "key not found"), s)
  Keys := fun s => ((memKV.live s, none), s)

/-- Modelled from the spec: a store that cannot be reached; every operation
fails. -/
def downKV : KV Unit where
  Get := fun _ s => (([], some (lit "connection refused")), s)
  Set := fun _ _ s => (some (lit "connection refused"), s)
  Delete := fun _ s => (some (lit "connection refused"), s)
  Keys := fun s => (([], some (lit "connection refused")), s)

/-- A host on which every call-out succeeds with an empty answer. -/
def okHost : Call → Unit → (Bytes × Option Bytes) × Unit :=
  fun _ s => (([], none), s)

/-- A host on which the call-outs to the given capability fail and every other
call-out succeeds. -/
def failingHost (capability : Bytes) : Call → Unit → (Bytes × Option Bytes) × Unit :=
  fun c s =>
    if c.Capability = capability then (([], some (lit "capability unavailable")), s)
    else (([], none), s)

/-! ## Concrete inputs -/

namespace Sample

/-- The empty in-memory store, nothing observed or logged. -/
def world : World (List (Bytes × Bytes)) := { kv := [], stats := [], log := [] }

/-- The in-memory store holding `hi` under the key `a`. -/
def worldWithA : World (List (Bytes × Bytes)) :=
  { kv := [(lit "a", lit "hi")], stats := [], log := [] }

/-- The unreachable store. -/
def worldDown : World Unit := { kv := (), stats := [], log := [] }

/-- The request with the key `a`, for `get` and `delete`. -/
def keyA : Bytes := lit "\x7b\"key\":\"a\"\x7d"

/-- The `set` request storing `hi` under the key `a`. -/
def setA : Bytes := lit "\x7b\"key\":\"a\",\"data\":\"aGk=\"\x7d"

/-- A `set` request whose data is not base64. -/
def setBad : Bytes := lit "\x7b\"key\":\"a\",\"data\":\"!!\"\x7d"

/-- A buffer that is not JSON. -/
def notJson : Bytes := lit "not json"

/-- The envelope whose payload is the base64 of `i am a little teapot`. -/
def envelope : Bytes := lit "\x7b\"payload\":\"aSBhbSBhIGxpdHRsZSB0ZWFwb3Q=\"\x7d"

/-- An envelope with the payload `aGk=` and a second member holding three
hundred nested arrays: valid JSON, nested deeper than `MaxDepth`. -/
def deepEnvelope : Bytes :=
  lit "\x7b\"payload\":\"aGk=\",\"x\":" ++ List.replicate 300 91 ++ List.replicate 300 93
    ++ lit "\x7d"

/-- A guest that has made no call-out. -/
def guest : Guest Unit := { host := (), calls := [] }

end Sample

/-! # Properties -/

theorem exists_of_ne_none {α : Type} (o : Option α) (h : o ≠ none) : ∃ x, o = some x := by
  cases o with
  | none => exact absurd rfl h
  | some x => exact ⟨x, rfl⟩

/-! ## `encoding/base64`: decoding inverts encoding -/

namespace base64


theorem decodeMap_encode (v : Nat) (h : v < 64) : decodeMap (encode v) = some v := by
  have key : ∀ w : Fin 64, decodeMap (encode w.val) = some w.val := by decide
  exact key ⟨v, h⟩

theorem decodeMap_padChar : decodeMap padChar = none := by decide

theorem quantumBytes_full (a b c : Byte) :
    quantumBytes [(a.val * 65536 + b.val * 256 + c.val) / 262144 % 64,
      (a.val * 65536 + b.val * 256 + c.val) / 4096 % 64,
      (a.val * 65536 + b.val * 256 + c.val) / 64 % 64,
      (a.val * 65536 + b.val * 256 + c.val) % 64] 4 = [a, b, c] := by
  have ha := a.isLt
  have hb := b.isLt
  have hc := c.isLt
  simp only [quantumBytes, quantumVal, List.getD_cons_zero, List.getD_cons_succ, List.take]
  simp only [List.cons.injEq, and_true]
  refine ⟨?_, ?_, ?_⟩ <;> apply Fin.ext <;> simp only [Fin.ofNat, Fin.val_mk] <;> omega


theorem sextet_lt (n : Nat) : n % 64 < 64 := Nat.mod_lt _ (by decide)

theorem quantumBytes_two (a b : Byte) :
    quantumBytes [(a.val * 65536 + b.val * 256) / 262144 % 64,
      (a.val * 65536 + b.val * 256) / 4096 % 64,
      (a.val * 65536 + b.val * 256) / 64 % 64] 3 = [a, b] := by
  have ha := a.isLt
  have hb := b.isLt
  simp only [quantumBytes, quantumVal, List.getD_cons_zero, List.getD_cons_succ, List.take,
    List.getD_nil]
  simp only [List.cons.injEq, and_true]
  refine ⟨?_, ?_⟩ <;> apply Fin.ext <;> simp only [Fin.ofNat, Fin.val_mk] <;> omega

theorem quantumBytes_one (a : Byte) :
    quantumBytes [(a.val * 65536) / 262144 % 64, (a.val * 65536) / 4096 % 64] 2 = [a] := by
  have ha := a.isLt
  simp only [quantumBytes, quantumVal, List.getD_cons_zero, List.getD_cons_succ, List.take,
    List.getD_nil]
  simp only [List.cons.injEq, and_true]
  apply Fin.ext
  simp only [Fin.ofNat, Fin.val_mk]
  omega

theorem decodeFrom_EncodeToString (bs : Bytes) :
    ∀ (si : Nat) (out : Bytes), decodeFrom (EncodeToString bs) si [] out = (out ++ bs, none) := by
  induction bs using EncodeToString.induct with
  | case1 => intro si out; simp [EncodeToString, decodeFrom]
  | case2 a =>
    intro si out
    simp only [EncodeToString, decodeFrom, decodeMap_encode _ (sextet_lt _), decodeMap_padChar,
      List.length_nil, List.length_cons, List.nil_append, List.cons_append]
    simp [padChar, skipNewlines, finishPadded, quantumBytes_one, show ((61 : Fin 256) : Nat) = 61 from rfl]
  | case3 a b =>
    intro si out
    simp only [EncodeToString, decodeFrom, decodeMap_encode _ (sextet_lt _), decodeMap_padChar,
      List.length_nil, List.length_cons, List.nil_append, List.cons_append]
    simp [padChar, skipNewlines, finishPadded, quantumBytes_two, show ((61 : Fin 256) : Nat) = 61 from rfl]
  | case4 a b c rest ih =>
    intro si out
    simp only [EncodeToString, decodeFrom, decodeMap_encode _ (sextet_lt _),
      List.length_nil, List.length_cons, List.nil_append, List.cons_append]
    simp [quantumBytes_full, ih]

/-- Decoding the standard encoding of a byte sequence gives the sequence back, without error. -/
theorem DecodeString_EncodeToString (bs : Bytes) :
    DecodeString (EncodeToString bs) = (bs, none) := by
  simpa [DecodeString] using decodeFrom_EncodeToString bs 0 []

end base64

/-! ## The reference JSON library reads what it writes -/

namespace Json

theorem lit_u00 : lit "\\u00" = [92, 117, 48, 48] := rfl

theorem parseStringN_escapeByte (c : Byte) (rest : Bytes) (n : Nat) :
    parseStringN (n + 1) (escapeByte c ++ rest)
      = (parseStringN n rest).map (fun p => (c :: p.1, p.2)) := by
  obtain ⟨k, hk⟩ := c
  by_cases hesc : k < 32 ∨ k = 34 ∨ k = 38 ∨ k = 60 ∨ k = 62 ∨ k = 92
  · have hcases : k < 32 ∨ k = 34 ∨ k = 38 ∨ k = 60 ∨ k = 62 ∨ k = 92 := hesc
    rcases hcases with h | h | h | h | h | h
    · interval_cases k <;> (simp only [escapeByte, hexDigit, lit_u00]; simp; rfl)
    all_goals (subst h; simp only [escapeByte, hexDigit, lit_u00]; simp; rfl)
  · have h34 : ¬ k = 34 := fun h => hesc (by omega)
    have h92 : ¬ k = 92 := fun h => hesc (by omega)
    have h32 : ¬ k < 32 := fun h => hesc (by omega)
    have h10 : ¬ k = 10 := fun h => hesc (by omega)
    have h13 : ¬ k = 13 := fun h => hesc (by omega)
    have h9 : ¬ k = 9 := fun h => hesc (by omega)
    have hx : ¬ (k < 32 ∨ k = 60 ∨ k = 62 ∨ k = 38) := fun h => hesc (by omega)
    have hy : ¬ (k = 60 ∨ k = 62 ∨ k = 38) := fun h => hesc (by omega)
    simp [escapeByte, parseStringN, h34, h92, h32, h10, h13, h9, hx, hy]

theorem parseStringN_escape (s rest : Bytes) :
    ∀ fuel, s.length < fuel →
      parseStringN fuel ((s.map escapeByte).flatten ++ 34 :: rest) = some (s, rest) := by
  induction s with
  | nil =>
    intro fuel h
    obtain ⟨n, rfl⟩ : ∃ n, fuel = n + 1 := ⟨fuel - 1, by simp at h; omega⟩
    rfl
  | cons c t ih =>
    intro fuel h
    obtain ⟨n, rfl⟩ : ∃ n, fuel = n + 1 := ⟨fuel - 1, by omega⟩
    simp only [List.map_cons, List.flatten_cons, List.append_assoc]
    rw [parseStringN_escapeByte, ih n (by simp at h; omega)]
    rfl

theorem length_escapeByte (c : Byte) : 1 ≤ (escapeByte c).length := by
  unfold escapeByte
  split_ifs <;> simp [lit]

theorem length_escape (s : Bytes) : s.length ≤ ((s.map escapeByte).flatten).length := by
  induction s with
  | nil => simp
  | cons c t ih =>
    have := length_escapeByte c
    simp only [List.map_cons, List.flatten_cons, List.length_append, List.length_cons]
    omega

/-- The reference parser reads back a string written by the reference encoder. -/
theorem parseString_escape (s rest : Bytes) :
    parseString ((s.map escapeByte).flatten ++ 34 :: rest) = some (s, rest) := by
  unfold parseString
  apply parseStringN_escape
  have := length_escape s
  simp only [List.length_append, List.length_cons]
  omega

theorem natDigits_digit (fuel : Nat) :
    ∀ n, n < fuel → ∀ c ∈ natDigits fuel n, 48 ≤ c.val ∧ c.val ≤ 57 := by
  induction fuel with
  | zero => intro n h; omega
  | succ f ih =>
    intro n h c hc
    unfold natDigits at hc
    split_ifs at hc with h10
    · simp only [List.mem_singleton] at hc
      subst hc
      simp only [Fin.ofNat, Fin.val_mk]
      omega
    · rcases List.mem_append.mp hc with h1 | h1
      · exact ih (n / 10) (by omega) c h1
      · simp only [List.mem_singleton] at h1
        subst h1
        simp only [Fin.ofNat, Fin.val_mk]
        omega

theorem natDigits_head (fuel : Nat) :
    ∀ n, n < fuel → 0 < n →
      ∃ d ds, natDigits fuel n = d :: ds ∧ 49 ≤ d.val ∧ d.val ≤ 57 := by
  induction fuel with
  | zero => intro n h; omega
  | succ f ih =>
    intro n h hpos
    unfold natDigits
    split_ifs with h10
    · refine ⟨_, [], rfl, ?_⟩
      simp only [Fin.ofNat, Fin.val_mk]
      omega
    · obtain ⟨d, ds, hd, hr⟩ := ih (n / 10) (by omega) (by omega)
      exact ⟨d, ds ++ [Fin.ofNat (48 + n % 10)], by rw [hd]; rfl, hr⟩

theorem digits_append (ds : Bytes) (c : Byte) (rest : Bytes)
    (hds : ∀ d ∈ ds, 48 ≤ d.val ∧ d.val ≤ 57) (hc : ¬ (48 ≤ c.val ∧ c.val ≤ 57)) :
    digits (ds ++ c :: rest) = (ds, c :: rest) := by
  induction ds with
  | nil => simp [digits, hc]
  | cons d t ih =>
    have hd := hds d (List.mem_cons_self d t)
    have ht := ih (fun x hx => hds x (List.mem_cons_of_mem d hx))
    simp [digits, hd, ht]

theorem parseInt_natDigits (n : Nat) (c : Byte) (rest : Bytes)
    (hc : ¬ (48 ≤ c.val ∧ c.val ≤ 57)) :
    parseInt (natDigits (n + 1) n ++ c :: rest) = some (natDigits (n + 1) n, c :: rest) := by
  rcases Nat.eq_zero_or_pos n with h0 | hpos
  · subst h0
    rfl
  · obtain ⟨d, ds, hd, hr⟩ := natDigits_head (n + 1) n (by omega) hpos
    have hall := natDigits_digit (n + 1) n (by omega)
    rw [hd] at hall ⊢
    have hds : ∀ x ∈ ds, 48 ≤ x.val ∧ x.val ≤ 57 :=
      fun x hx => hall x (List.mem_cons_of_mem d hx)
    have h48 : ¬ d.val = 48 := by omega
    simp [parseInt, h48, hr, digits_append ds c rest hds hc]

theorem parseFrac_comma (rest : Bytes) : parseFrac (44 :: rest) = some ([], 44 :: rest) := rfl

theorem parseExp_comma (rest : Bytes) : parseExp (44 :: rest) = some ([], 44 :: rest) := rfl

theorem parseNumber_natDigits (n : Nat) (rest : Bytes) :
    parseNumber (natDigits (n + 1) n ++ 44 :: rest) = some (natDigits (n + 1) n, 44 :: rest) := by
  have hhead : ∃ d ds, natDigits (n + 1) n = d :: ds ∧ 48 ≤ d.val ∧ d.val ≤ 57 := by
    rcases Nat.eq_zero_or_pos n with h0 | hpos
    · subst h0
      exact ⟨48, [], rfl, by decide, by decide⟩
    · obtain ⟨d, ds, hd, hr⟩ := natDigits_head (n + 1) n (by omega) hpos
      exact ⟨d, ds, hd, by omega, hr.2⟩
  have hint := parseInt_natDigits n 44 rest (by decide)
  obtain ⟨d, ds, hd, hr⟩ := hhead
  rw [hd] at hint ⊢
  have h45 : ¬ d.val = 45 := by omega
  simp only [parseNumber, List.cons_append, h45, if_false] at hint ⊢
  rw [hint]
  simp [parseFrac_comma, parseExp_comma]

theorem parseNumber_fmtInt (i : Int) (rest : Bytes) :
    parseNumber (fmtInt i ++ 44 :: rest) = some (fmtInt i, 44 :: rest) := by
  unfold fmtInt
  split_ifs with hneg
  · have hint := parseInt_natDigits i.natAbs 44 rest (by decide)
    have h45 : lit "-" = [45] := rfl
    simp only [h45, parseNumber, List.cons_append, List.nil_append, List.singleton_append]
    simp only [show ((45 : Byte) : Nat) = 45 from rfl, if_true, hint]
    simp [parseFrac_comma, parseExp_comma]
  · exact parseNumber_natDigits i.natAbs rest

theorem skipWS_cons (c : Byte) (rest : Bytes) (h : isWS c = false) :
    skipWS (c :: rest) = c :: rest := by
  simp [skipWS, h]

theorem encodeString_append (s rest : Bytes) :
    encodeString s ++ rest = 34 :: ((s.map escapeByte).flatten ++ 34 :: rest) := by
  have hq : lit "\"" = [34] := rfl
  simp [encodeString, hq]

theorem parseValue_string (f : Nat) (s rest : Bytes) :
    parseValue (f + 1) (encodeString s ++ rest) = some (Value.string s, rest) := by
  rw [encodeString_append, parseValue, skipWS_cons _ _ (by decide)]
  simp only [show ((34 : Byte) : Nat) = 34 from rfl]
  simp [parseString_escape]

theorem parseValue_number_head (f : Nat) (c : Byte) (t : Bytes)
    (hc : c.val = 45 ∨ (48 ≤ c.val ∧ c.val ≤ 57)) :
    parseValue (f + 1) (c :: t) = (parseNumber (c :: t)).map (fun p => (Value.number p.1, p.2)) := by
  have hws : isWS c = false := by
    simp only [isWS, Bool.or_eq_false_iff, decide_eq_false_iff_not]
    omega
  have h123 : ¬ c.val = 123 := by omega
  have h91 : ¬ c.val = 91 := by omega
  have h34 : ¬ c.val = 34 := by omega
  have hn : ¬ c = 110 := by
    intro h; rw [h] at hc; revert hc; decide
  have ht : ¬ c = 116 := by
    intro h; rw [h] at hc; revert hc; decide
  have hf : ¬ c = 102 := by
    intro h; rw [h] at hc; revert hc; decide
  have l1 : lit "null" = [110, 117, 108, 108] := rfl
  have l2 : lit "true" = [116, 114, 117, 101] := rfl
  have l3 : lit "false" = [102, 97, 108, 115, 101] := rfl
  rw [parseValue, skipWS_cons _ _ hws]
  simp [h123, h91, h34, l1, l2, l3, hn, ht, hf]

theorem fmtInt_head (i : Int) :
    ∃ c t, fmtInt i = c :: t ∧ (c.val = 45 ∨ (48 ≤ c.val ∧ c.val ≤ 57)) := by
  unfold fmtInt
  split_ifs with hneg
  · exact ⟨45, _, rfl, Or.inl rfl⟩
  · rcases Nat.eq_zero_or_pos i.natAbs with h0 | hpos
    · rw [h0]
      exact ⟨48, [], rfl, Or.inr (by decide)⟩
    · obtain ⟨d, ds, hd, hr⟩ := natDigits_head (i.natAbs + 1) i.natAbs (by omega) hpos
      exact ⟨d, ds, hd, Or.inr ⟨by omega, hr.2⟩⟩

theorem parseValue_number (f : Nat) (i : Int) (rest : Bytes) :
    parseValue (f + 1) (fmtInt i ++ 44 :: rest) = some (Value.number (fmtInt i), 44 :: rest) := by
  obtain ⟨c, t, hct, hc⟩ := fmtInt_head i
  have h := parseValue_number_head f c (t ++ 44 :: rest) hc
  rw [← List.cons_append, ← hct] at h
  rw [h, parseNumber_fmtInt]
  rfl

theorem parseMembers_cons (pv : Bytes → Option (Value × Bytes)) (n : Nat) (k src : Bytes)
    (v : Value) (src2 : Bytes) (hv : pv src = some (v, 44 :: src2)) :
    parseMembers pv (n + 1) (encodeString k ++ 58 :: src)
      = (parseMembers pv n src2).map (fun p => ((k, v) :: p.1, p.2)) := by
  rw [encodeString_append, parseMembers, skipWS_cons _ _ (by decide)]
  simp only [show ((34 : Byte) : Nat) = 34 from rfl, if_true, parseString_escape]
  rw [skipWS_cons _ _ (by decide)]
  simp only [show ((58 : Byte) : Nat) = 58 from rfl, if_true, hv]
  rw [skipWS_cons _ _ (by decide)]
  simp only [show ((44 : Byte) : Nat) = 44 from rfl]
  simp

theorem parseMembers_last (pv : Bytes → Option (Value × Bytes)) (n : Nat) (k src : Bytes)
    (v : Value) (src2 : Bytes) (hv : pv src = some (v, 125 :: src2)) :
    parseMembers pv (n + 1) (encodeString k ++ 58 :: src) = some ([(k, v)], src2) := by
  rw [encodeString_append, parseMembers, skipWS_cons _ _ (by decide)]
  simp only [show ((34 : Byte) : Nat) = 34 from rfl, if_true, parseString_escape]
  rw [skipWS_cons _ _ (by decide)]
  simp only [show ((58 : Byte) : Nat) = 58 from rfl, if_true, hv]
  rw [skipWS_cons _ _ (by decide)]
  simp only [show ((125 : Byte) : Nat) = 125 from rfl]
  simp

theorem parseValue_object (f : Nat) (k rest : Bytes) :
    parseValue (f + 1) (123 :: (encodeString k ++ rest))
      = (parseMembers (parseValue f) (encodeString k ++ rest).length (encodeString k ++ rest)).map
          (fun p => (Value.object p.1, p.2)) := by
  rw [parseValue, skipWS_cons _ _ (by decide)]
  simp only [show ((123 : Byte) : Nat) = 123 from rfl, if_true]
  rw [encodeString_append, skipWS_cons _ _ (by decide)]
  simp only [show ((34 : Byte) : Nat) = 34 from rfl]
  simp

theorem length_encodeString_append (k rest : Bytes) :
    ∃ m, (encodeString k ++ rest).length = m + 2 + rest.length := by
  rw [encodeString_append]
  refine ⟨((k.map escapeByte).flatten).length, ?_⟩
  simp only [List.length_cons, List.length_append]
  omega

theorem encodeStatus_append (st : Status) (rest : Bytes) :
    encodeStatus st ++ rest
      = 123 :: (encodeString (lit "code") ++ 58 :: (fmtInt st.Code ++ 44 ::
          (encodeString (lit "status") ++ 58 :: (encodeString st.Status ++ 125 :: rest)))) := by
  have h1 : lit "\x7b\"code\":" = 123 :: (encodeString (lit "code") ++ [58]) := by decide
  have h2 : lit ",\"status\":" = 44 :: (encodeString (lit "status") ++ [58]) := by decide
  have h3 : lit "\x7d" = [125] := rfl
  simp only [encodeStatus, h1, h2, h3, List.append_assoc, List.cons_append, List.nil_append,
    List.singleton_append]

/-- The reference parser reads back a status written by the reference encoder. -/
theorem parseValue_status (f : Nat) (st : Status) (rest : Bytes) :
    parseValue (f + 2) (encodeStatus st ++ rest)
      = some (Value.object [(lit "code", Value.number (fmtInt st.Code)),
          (lit "status", Value.string st.Status)], rest) := by
  rw [encodeStatus_append, parseValue_object]
  obtain ⟨m, hm⟩ := length_encodeString_append (lit "code") (58 :: (fmtInt st.Code ++ 44 ::
    (encodeString (lit "status") ++ 58 :: (encodeString st.Status ++ 125 :: rest))))
  rw [hm, show m + 2 + (58 :: (fmtInt st.Code ++ 44 :: (encodeString (lit "status") ++ 58 ::
      (encodeString st.Status ++ 125 :: rest)))).length
    = (m + (58 :: (fmtInt st.Code ++ 44 :: (encodeString (lit "status") ++ 58 ::
      (encodeString st.Status ++ 125 :: rest)))).length) + 1 + 1 by omega]
  rw [parseMembers_cons _ _ _ _ _ _ (parseValue_number f st.Code _),
    parseMembers_last _ _ _ _ _ _ (parseValue_string f st.Status _)]
  rfl

theorem parse_eq_of_parseValue (src : Bytes) (v : Value) (h2 : 2 ≤ src.length)
    (h : ∀ f, parseValue (f + 3) src = some (v, [])) : parse src = some v := by
  unfold parse
  obtain ⟨f, hf⟩ : ∃ f, src.length + 1 = f + 3 := ⟨src.length - 2, by omega⟩
  rw [hf, h f]
  rfl

theorem parse_of_parseValue (src : Bytes) (v : Value) (h2 : 2 ≤ src.length)
    (h : ∀ f, parseValue (f + 3) src = some (v, [])) : valid src = true := by
  unfold valid
  rw [parse_eq_of_parseValue src v h2 h]
  rfl

theorem valid_status_only (st : Status) :
    valid (lit "\x7b\"status\":" ++ encodeStatus st ++ lit "\x7d") = true := by
  have h1 : lit "\x7b\"status\":" = 123 :: (encodeString (lit "status") ++ [58]) := by decide
  have h3 : lit "\x7d" = [125] := rfl
  have hsrc : lit "\x7b\"status\":" ++ encodeStatus st ++ lit "\x7d"
      = 123 :: (encodeString (lit "status") ++ 58 :: (encodeStatus st ++ 125 :: [])) := by
    simp only [h1, h3, List.append_assoc, List.cons_append, List.nil_append,
      List.singleton_append]
  rw [hsrc]
  apply parse_of_parseValue _
    (Value.object [(lit "status", Value.object [(lit "code", Value.number (fmtInt st.Code)),
      (lit "status", Value.string st.Status)])])
  · simp only [List.length_cons, List.length_append]
    omega
  · intro f
    rw [parseValue_object]
    obtain ⟨m, hm⟩ := length_encodeString_append (lit "status")
      (58 :: (encodeStatus st ++ 125 :: []))
    rw [hm, show m + 2 + (58 :: (encodeStatus st ++ 125 :: [])).length
      = (m + 1 + (58 :: (encodeStatus st ++ 125 :: [])).length) + 1 by omega]
    rw [parseMembers_last _ _ _ _ _ _ (parseValue_status f st _)]
    rfl

theorem valid_status_data (st : Status) (data : Bytes) :
    valid (lit "\x7b\"status\":" ++ encodeStatus st ++ lit ",\"data\":" ++ encodeString data
      ++ lit "\x7d") = true := by
  have h1 : lit "\x7b\"status\":" = 123 :: (encodeString (lit "status") ++ [58]) := by decide
  have h2 : lit ",\"data\":" = 44 :: (encodeString (lit "data") ++ [58]) := by decide
  have h3 : lit "\x7d" = [125] := rfl
  have hsrc : lit "\x7b\"status\":" ++ encodeStatus st ++ lit ",\"data\":" ++ encodeString data
        ++ lit "\x7d"
      = 123 :: (encodeString (lit "status") ++ 58 :: (encodeStatus st ++ 44 ::
          (encodeString (lit "data") ++ 58 :: (encodeString data ++ 125 :: [])))) := by
    simp only [h1, h2, h3, List.append_assoc, List.cons_append, List.nil_append,
      List.singleton_append]
  rw [hsrc]
  apply parse_of_parseValue _
    (Value.object [(lit "status", Value.object [(lit "code", Value.number (fmtInt st.Code)),
      (lit "status", Value.string st.Status)]), (lit "data", Value.string data)])
  · simp only [List.length_cons, List.length_append]
    omega
  · intro f
    rw [parseValue_object]
    obtain ⟨m, hm⟩ := length_encodeString_append (lit "status")
      (58 :: (encodeStatus st ++ 44 ::
          (encodeString (lit "data") ++ 58 :: (encodeString data ++ 125 :: []))))
    rw [hm, show m + 2 + (58 :: (encodeStatus st ++ 44 ::
          (encodeString (lit "data") ++ 58 :: (encodeString data ++ 125 :: [])))).length
      = (m + (58 :: (encodeStatus st ++ 44 ::
          (encodeString (lit "data") ++ 58 :: (encodeString data ++ 125 :: [])))).length) + 1 + 1
      by omega]
    rw [parseMembers_cons _ _ _ _ _ _ (parseValue_status f st _),
      parseMembers_last _ _ _ _ _ _ (parseValue_string (f + 1) data _)]
    rfl

theorem parseElements_strings (f : Nat) (rest : Bytes) (ks : List Bytes) :
    ks ≠ [] → ∀ n, ks.length ≤ n →
      parseElements (parseValue (f + 1)) n (encodeStrings ks ++ 93 :: rest)
        = some (ks.map Value.string, rest) := by
  induction ks using encodeStrings.induct with
  | case1 => intro h; exact absurd rfl h
  | case2 s =>
    intro _ n hn
    obtain ⟨m, rfl⟩ : ∃ m, n = m + 1 := ⟨n - 1, by simp at hn; omega⟩
    rw [encodeStrings, parseElements, parseValue_string]
    simp only
    rw [skipWS_cons _ _ (by decide)]
    simp only [show ((93 : Byte) : Nat) = 93 from rfl, if_true]
    rfl
  | case3 s t r ih =>
    intro _ n hn
    obtain ⟨m, rfl⟩ : ∃ m, n = m + 1 := ⟨n - 1, by simp at hn; omega⟩
    have hc : lit "," = [44] := rfl
    rw [encodeStrings, hc, List.append_assoc, List.append_assoc, parseElements,
      parseValue_string]
    simp only [List.singleton_append]
    rw [skipWS_cons _ _ (by decide)]
    simp only [show ((44 : Byte) : Nat) = 44 from rfl, if_true]
    rw [ih (by simp) m (by simp at hn ⊢; omega)]
    simp

theorem length_encodeStrings (ks : List Bytes) : ks.length ≤ (encodeStrings ks).length := by
  induction ks using encodeStrings.induct with
  | case1 => simp [encodeStrings]
  | case2 s =>
    obtain ⟨m, hm⟩ := length_encodeString_append s []
    simp only [List.append_nil, List.length_nil] at hm
    simp only [encodeStrings, hm, List.length_singleton]
    omega
  | case3 s t r ih =>
    obtain ⟨m, hm⟩ := length_encodeString_append s []
    simp only [List.append_nil, List.length_nil] at hm
    simp only [encodeStrings, List.length_append, hm, List.length_cons] at ih ⊢
    omega

theorem encodeStrings_head (ks : List Bytes) (h : ks ≠ []) (rest : Bytes) :
    ∃ t, encodeStrings ks ++ rest = 34 :: t := by
  cases ks with
  | nil => exact absurd rfl h
  | cons s r =>
    cases r with
    | nil => exact ⟨_, by rw [encodeStrings, encodeString_append]⟩
    | cons t r => exact ⟨_, by rw [encodeStrings, List.append_assoc, List.append_assoc,
        encodeString_append]⟩

theorem parseValue_strings (f : Nat) (ks : List Bytes) (rest : Bytes) :
    parseValue (f + 2) (91 :: (encodeStrings ks ++ 93 :: rest))
      = some (Value.array (ks.map Value.string), rest) := by
  rw [parseValue, skipWS_cons _ _ (by decide)]
  simp only [show ((91 : Byte) : Nat) = 91 from rfl]
  by_cases hks : ks = []
  · subst hks
    simp only [encodeStrings, List.nil_append]
    rw [skipWS_cons _ _ (by decide)]
    simp only [show ((93 : Byte) : Nat) = 93 from rfl]
    simp
  · obtain ⟨t, ht⟩ := encodeStrings_head ks hks (93 :: rest)
    have hlen : ks.length ≤ (encodeStrings ks ++ 93 :: rest).length := by
      have := length_encodeStrings ks
      simp only [List.length_append]
      omega
    have hel := parseElements_strings f rest ks hks _ hlen
    rw [ht] at hel ⊢
    rw [skipWS_cons _ _ (by decide)]
    simp only [show ((34 : Byte) : Nat) = 34 from rfl]
    rw [List.length_cons] at hel
    simp [hel]

theorem valid_status_keys (st : Status) (ks : List Bytes) :
    valid (lit "\x7b\"status\":" ++ encodeStatus st ++ lit ",\"keys\":[" ++ encodeStrings ks
      ++ lit "]\x7d") = true := by
  have h1 : lit "\x7b\"status\":" = 123 :: (encodeString (lit "status") ++ [58]) := by decide
  have h2 : lit ",\"keys\":[" = 44 :: (encodeString (lit "keys") ++ [58, 91]) := by decide
  have h3 : lit "]\x7d" = [93, 125] := rfl
  have hsrc : lit "\x7b\"status\":" ++ encodeStatus st ++ lit ",\"keys\":[" ++ encodeStrings ks
        ++ lit "]\x7d"
      = 123 :: (encodeString (lit "status") ++ 58 :: (encodeStatus st ++ 44 ::
          (encodeString (lit "keys") ++ 58 :: 91 :: (encodeStrings ks ++ 93 :: 125 :: [])))) := by
    simp only [h1, h2, h3, List.append_assoc, List.cons_append, List.nil_append,
      List.singleton_append]
  rw [hsrc]
  apply parse_of_parseValue _
    (Value.object [(lit "status", Value.object [(lit "code", Value.number (fmtInt st.Code)),
      (lit "status", Value.string st.Status)]),
      (lit "keys", Value.array (ks.map Value.string))])
  · simp only [List.length_cons, List.length_append]
    omega
  · intro f
    rw [parseValue_object]
    obtain ⟨m, hm⟩ := length_encodeString_append (lit "status")
      (58 :: (encodeStatus st ++ 44 ::
          (encodeString (lit "keys") ++ 58 :: 91 :: (encodeStrings ks ++ 93 :: 125 :: []))))
    rw [hm, show m + 2 + (58 :: (encodeStatus st ++ 44 ::
          (encodeString (lit "keys") ++ 58 :: 91 :: (encodeStrings ks ++ 93 :: 125 :: [])))).length
      = (m + (58 :: (encodeStatus st ++ 44 ::
          (encodeString (lit "keys") ++ 58 :: 91 :: (encodeStrings ks ++ 93 :: 125 :: [])))).length)
        + 1 + 1 by omega]
    rw [parseMembers_cons _ _ _ _ _ _ (parseValue_status f st _),
      parseMembers_last _ _ _ _ _ _ (parseValue_strings f ks _)]
    rfl

theorem parse_encodeKeyRequest (key : Bytes) :
    parse (encodeKeyRequest key) = some (Value.object [(lit "key", Value.string key)]) := by
  have h1 : lit "\x7b\"key\":" = 123 :: (encodeString (lit "key") ++ [58]) := by decide
  have h3 : lit "\x7d" = [125] := rfl
  have hsrc : encodeKeyRequest key
      = 123 :: (encodeString (lit "key") ++ 58 :: (encodeString key ++ 125 :: [])) := by
    simp only [encodeKeyRequest, h1, h3, List.append_assoc, List.cons_append, List.nil_append,
      List.singleton_append]
  rw [hsrc]
  apply parse_eq_of_parseValue
  · simp only [List.length_cons, List.length_append]
    omega
  · intro f
    rw [parseValue_object]
    obtain ⟨m, hm⟩ := length_encodeString_append (lit "key")
      (58 :: (encodeString key ++ 125 :: []))
    rw [hm, show m + 2 + (58 :: (encodeString key ++ 125 :: [])).length
      = (m + 1 + (58 :: (encodeString key ++ 125 :: [])).length) + 1 by omega]
    rw [parseMembers_last _ _ _ _ _ _ (parseValue_string (f + 1) key _)]
    rfl

theorem parse_encodeSetRequest (key data : Bytes) :
    parse (encodeSetRequest key data)
      = some (Value.object [(lit "key", Value.string key), (lit "data", Value.string data)]) := by
  have h1 : lit "\x7b\"key\":" = 123 :: (encodeString (lit "key") ++ [58]) := by decide
  have h2 : lit ",\"data\":" = 44 :: (encodeString (lit "data") ++ [58]) := by decide
  have h3 : lit "\x7d" = [125] := rfl
  have hsrc : encodeSetRequest key data
      = 123 :: (encodeString (lit "key") ++ 58 :: (encodeString key ++ 44 ::
          (encodeString (lit "data") ++ 58 :: (encodeString data ++ 125 :: [])))) := by
    simp only [encodeSetRequest, h1, h2, h3, List.append_assoc, List.cons_append,
      List.nil_append, List.singleton_append]
  rw [hsrc]
  apply parse_eq_of_parseValue
  · simp only [List.length_cons, List.length_append]
    omega
  · intro f
    rw [parseValue_object]
    obtain ⟨m, hm⟩ := length_encodeString_append (lit "key")
      (58 :: (encodeString key ++ 44 ::
          (encodeString (lit "data") ++ 58 :: (encodeString data ++ 125 :: []))))
    rw [hm, show m + 2 + (58 :: (encodeString key ++ 44 ::
          (encodeString (lit "data") ++ 58 :: (encodeString data ++ 125 :: [])))).length
      = (m + (58 :: (encodeString key ++ 44 ::
          (encodeString (lit "data") ++ 58 :: (encodeString data ++ 125 :: [])))).length) + 1 + 1
      by omega]
    rw [parseMembers_cons _ _ _ _ _ _ (parseValue_string (f + 1) key _),
      parseMembers_last _ _ _ _ _ _ (parseValue_string (f + 1) data _)]
    rfl

end Json

/-- The reference library decodes the text of a `get` request to its key. -/
theorem refFFJson_UnmarshalGet_request (key : Bytes) :
    refFFJson.UnmarshalGet (Json.encodeKeyRequest key) = ({ Key := key }, none) := by
  simp only [refFFJson, Json.parse_encodeKeyRequest]
  rfl

/-- The reference library decodes the text of a `delete` request to its key. -/
theorem refFFJson_UnmarshalDelete_request (key : Bytes) :
    refFFJson.UnmarshalDelete (Json.encodeKeyRequest key) = ({ Key := key }, none) := by
  simp only [refFFJson, Json.parse_encodeKeyRequest]
  rfl

/-- The reference library decodes the text of a `set` request to its key and data. -/
theorem refFFJson_UnmarshalSet_request (key data : Bytes) :
    refFFJson.UnmarshalSet (Json.encodeSetRequest key data)
      = ({ Key := key, Data := data }, none) := by
  simp only [refFFJson, Json.parse_encodeSetRequest]
  rfl

/-- The reference library meets what is assumed of a JSON library. -/
theorem refFFJson_lawful : refFFJson.Lawful where
  unmarshalGet_invalid := by
    intro b hb
    have hp : Json.parse b = none := by
      simpa [Json.valid] using hb
    simp [refFFJson, hp]
  unmarshalSet_invalid := by
    intro b hb
    have hp : Json.parse b = none := by
      simpa [Json.valid] using hb
    simp [refFFJson, hp]
  unmarshalDelete_invalid := by
    intro b hb
    have hp : Json.parse b = none := by
      simpa [Json.valid] using hb
    simp [refFFJson, hp]
  marshalGet_ok := fun r => ⟨rfl, Json.valid_status_data r.Status r.Data⟩
  marshalSet_ok := fun r => ⟨rfl, Json.valid_status_only r.Status⟩
  marshalDelete_ok := fun r => ⟨rfl, Json.valid_status_only r.Status⟩
  marshalKeys_ok := fun r => ⟨rfl, Json.valid_status_keys r.Status r.Keys⟩

/-! ## The in-memory store meets the contract -/

theorem memKV.find_eq_none (k : Bytes) (s : List (Bytes × Bytes)) (h : k ∉ memKV.live s) :
    memKV.find k s = none := by
  induction s with
  | nil => rfl
  | cons p rest ih =>
    obtain ⟨k1, v1⟩ := p
    simp only [memKV.live, List.map_cons, List.mem_cons, not_or] at h
    have hne : ¬ k1 = k := fun hk => h.1 hk.symm
    simp only [memKV.find, hne, if_false]
    exact ih h.2

theorem memKV.not_mem_remove (k : Bytes) (s : List (Bytes × Bytes)) :
    k ∉ memKV.live (memKV.remove k s) := by
  induction s with
  | nil => simp [memKV.remove, memKV.live]
  | cons p rest ih =>
    obtain ⟨k1, v1⟩ := p
    by_cases hk : k1 = k
    · simpa [memKV.remove, hk] using ih
    · simp only [memKV.remove, hk, if_false, memKV.live, List.map_cons, List.mem_cons, not_or]
      exact ⟨fun h => hk h.symm, ih⟩

theorem memKV.mem_put (k v : Bytes) (s : List (Bytes × Bytes)) :
    k ∈ memKV.live (memKV.put k v s) := by
  induction s with
  | nil => simp [memKV.put, memKV.live]
  | cons p rest ih =>
    obtain ⟨k1, v1⟩ := p
    by_cases hk : k1 = k
    · simp [memKV.put, hk, memKV.live]
    · simp only [memKV.put, hk, if_false, memKV.live, List.map_cons, List.mem_cons]
      exact Or.inr ih

theorem memKV.find_put (k v : Bytes) (s : List (Bytes × Bytes)) :
    memKV.find k (memKV.put k v s) = some v := by
  induction s with
  | nil => simp [memKV.put, memKV.find]
  | cons p rest ih =>
    obtain ⟨k1, v1⟩ := p
    by_cases hk : k1 = k
    · simp [memKV.put, hk, memKV.find]
    · simp [memKV.put, hk, memKV.find, ih]

theorem memKV_contract : memKV.Contract memKV.live where
  get_missing := by
    intro k s h
    simp [memKV, memKV.find_eq_none k s h]
  delete_missing := by
    intro k s h
    simp [memKV, memKV.find_eq_none k s h]
  delete_removes := by
    intro k s h
    cases hf : memKV.find k s with
    | none => simp [memKV, hf] at h
    | some v =>
      simp only [memKV, hf]
      exact memKV.not_mem_remove k s
  set_adds := by
    intro k v s _
    exact memKV.mem_put k v s
  keys_lists := by
    intro s _
    rfl

theorem memKV_keeps : memKV.KeepsWhatIsSet := by
  intro k v s
  refine ⟨rfl, ?_⟩
  simp [memKV, memKV.find_put]

theorem downKV_contract : downKV.Contract (fun _ => []) where
  get_missing := by intro k s _; simp [downKV]
  delete_missing := by intro k s _; simp [downKV]
  delete_removes := by intro k s h; simp [downKV] at h
  set_adds := by intro k v s h; simp [downKV] at h
  keys_lists := by intro s h; simp [downKV] at h

/-! ## The host callbacks and the guest handler -/

theorem GetR_stats {σ : Type} (J : FFJson) (K : KV σ) (b : Bytes) (w : World σ) :
    (kvStore.GetR J K b w).2.stats = w.stats ∧ (kvStore.GetR J K b w).2.log = w.log := by
  unfold kvStore.GetR
  simp only
  split <;> simp

theorem SetR_stats {σ : Type} (J : FFJson) (K : KV σ) (b : Bytes) (w : World σ) :
    (kvStore.SetR J K b w).2.stats = w.stats ∧ (kvStore.SetR J K b w).2.log = w.log := by
  unfold kvStore.SetR
  simp only
  split_ifs <;> simp

theorem DeleteR_stats {σ : Type} (J : FFJson) (K : KV σ) (b : Bytes) (w : World σ) :
    (kvStore.DeleteR J K b w).2.stats = w.stats ∧ (kvStore.DeleteR J K b w).2.log = w.log := by
  unfold kvStore.DeleteR
  simp only
  split <;> simp

theorem KeysR_stats {σ : Type} (K : KV σ) (b : Bytes) (w : World σ) :
    (kvStore.KeysR K b w).2.stats = w.stats ∧ (kvStore.KeysR K b w).2.log = w.log := by
  simp [kvStore.KeysR]

/-- C1: for each of `Get`, `Set`, `Delete` and `Keys`, whatever the request
buffer, the JSON library and the store, when the response is marshalled
without error the callback returns the marshalled response, its error is nil
exactly when the status code of the response is 200, and an error it returns
has the status message of the response as its message. -/
theorem C1_error_iff_status_not_200 {σ : Type} (J : FFJson) (K : KV σ) (b : Bytes)
    (w : World σ) :
    ((J.MarshalGet (kvStore.GetR J K b w).1).2 = none →
      (kvStore.Get J K b w).1.1 = (J.MarshalGet (kvStore.GetR J K b w).1).1 ∧
      ((kvStore.Get J K b w).1.2 = none ↔ (kvStore.GetR J K b w).1.Status.Code = 200) ∧
      ∀ e, (kvStore.Get J K b w).1.2 = some e → e = (kvStore.GetR J K b w).1.Status.Status) ∧
    ((J.MarshalSet (kvStore.SetR J K b w).1).2 = none →
      (kvStore.Set J K b w).1.1 = (J.MarshalSet (kvStore.SetR J K b w).1).1 ∧
      ((kvStore.Set J K b w).1.2 = none ↔ (kvStore.SetR J K b w).1.Status.Code = 200) ∧
      ∀ e, (kvStore.Set J K b w).1.2 = some e → e = (kvStore.SetR J K b w).1.Status.Status) ∧
    ((J.MarshalDelete (kvStore.DeleteR J K b w).1).2 = none →
      (kvStore.Delete J K b w).1.1 = (J.MarshalDelete (kvStore.DeleteR J K b w).1).1 ∧
      ((kvStore.Delete J K b w).1.2 = none ↔ (kvStore.DeleteR J K b w).1.Status.Code = 200) ∧
      ∀ e, (kvStore.Delete J K b w).1.2 = some e →
        e = (kvStore.DeleteR J K b w).1.Status.Status) ∧
    ((J.MarshalKeys (kvStore.KeysR K b w).1).2 = none →
      (kvStore.Keys J K b w).1.1 = (J.MarshalKeys (kvStore.KeysR K b w).1).1 ∧
      ((kvStore.Keys J K b w).1.2 = none ↔ (kvStore.KeysR K b w).1.Status.Code = 200) ∧
      ∀ e, (kvStore.Keys J K b w).1.2 = some e → e = (kvStore.KeysR K b w).1.Status.Status) := by
  refine ⟨?_, ?_, ?_, ?_⟩
  · intro h
    by_cases hc : (kvStore.GetR J K b w).1.Status.Code = 200 <;> simp [kvStore.Get, h, hc]
  · intro h
    by_cases hc : (kvStore.SetR J K b w).1.Status.Code = 200 <;> simp [kvStore.Set, h, hc]
  · intro h
    by_cases hc : (kvStore.DeleteR J K b w).1.Status.Code = 200 <;>
      simp [kvStore.Delete, h, hc]
  · intro h
    by_cases hc : (kvStore.KeysR K b w).1.Status.Code = 200 <;> simp [kvStore.Keys, h, hc]

/-- C1, witness: over the reference library, `Get` of a key that is not held returns
the status message as its error, `Set` and `Delete` of a held key return no error,
and `Keys` over the unreachable store returns the status message as its error. -/
theorem C1_witness :
    (kvStore.Get refFFJson memKV Sample.keyA Sample.world).1.2
        = some (lit "Unable to fetch key a - key not found") ∧
      (kvStore.Set refFFJson memKV Sample.setA Sample.world).1.2 = none ∧
      (kvStore.Delete refFFJson memKV Sample.keyA Sample.worldWithA).1.2 = none ∧
      (kvStore.Keys refFFJson downKV Sample.keyA Sample.worldDown).1.2
        = some (lit "Unable to fetch keys - connection refused") := by
  have hg := (C1_error_iff_status_not_200 refFFJson memKV Sample.keyA Sample.world).1 rfl
  have hs := (C1_error_iff_status_not_200 refFFJson memKV Sample.setA Sample.world).2.1 rfl
  have hd :=
    (C1_error_iff_status_not_200 refFFJson memKV Sample.keyA Sample.worldWithA).2.2.1 rfl
  have hk :=
    (C1_error_iff_status_not_200 refFFJson downKV Sample.keyA Sample.worldDown).2.2.2 rfl
  refine ⟨?_, hs.2.1.mpr (by decide), hd.2.1.mpr (by decide), ?_⟩
  · cases h : (kvStore.Get refFFJson memKV Sample.keyA Sample.world).1.2 with
    | none => exact absurd (hg.2.1.mp h) (by decide)
    | some e => rw [hg.2.2 e h]; decide
  · cases h : (kvStore.Keys refFFJson downKV Sample.keyA Sample.worldDown).1.2 with
    | none => exact absurd (hk.2.1.mp h) (by decide)
    | some e => rw [hk.2.2 e h]; decide

/-- C8: each of `Get`, `Set`, `Delete` and `Keys`, on every input and on every
path (status 200, another status, or a failure to marshal), appends exactly
one observation to the metrics, labelled with the name of the operation. -/
theorem C8_one_observation_per_call {σ : Type} (J : FFJson) (K : KV σ) (b : Bytes)
    (w : World σ) :
    (kvStore.Get J K b w).2.stats = w.stats ++ [lit "get"] ∧
    (kvStore.Set J K b w).2.stats = w.stats ++ [lit "set"] ∧
    (kvStore.Delete J K b w).2.stats = w.stats ++ [lit "delete"] ∧
    (kvStore.Keys J K b w).2.stats = w.stats ++ [lit "keys"] := by
  refine ⟨?_, ?_, ?_, ?_⟩
  · have h := (GetR_stats J K b w).1
    unfold kvStore.Get
    simp only
    split
    · simp [World.Observe, World.Errorf, h]
    · split <;> simp [World.Observe, h]
  · have h := (SetR_stats J K b w).1
    unfold kvStore.Set
    simp only
    split
    · simp [World.Observe, World.Errorf, h]
    · split <;> simp [World.Observe, h]
  · have h := (DeleteR_stats J K b w).1
    unfold kvStore.Delete
    simp only
    split
    · simp [World.Observe, World.Errorf, h]
    · split <;> simp [World.Observe, h]
  · have h := (KeysR_stats K b w).1
    unfold kvStore.Keys
    simp only
    split
    · simp [World.Observe, World.Errorf, h]
    · split <;> simp [World.Observe, h]

theorem Get_err_ne_none_of_code {σ : Type} (J : FFJson) (K : KV σ) (b : Bytes) (w : World σ)
    (h : (kvStore.GetR J K b w).1.Status.Code ≠ 200) : (kvStore.Get J K b w).1.2 ≠ none := by
  unfold kvStore.Get
  simp only
  split
  · simp
  · simp [h]

theorem Set_err_ne_none_of_code {σ : Type} (J : FFJson) (K : KV σ) (b : Bytes) (w : World σ)
    (h : (kvStore.SetR J K b w).1.Status.Code ≠ 200) : (kvStore.Set J K b w).1.2 ≠ none := by
  unfold kvStore.Set
  simp only
  split
  · simp
  · simp [h]

theorem Delete_err_ne_none_of_code {σ : Type} (J : FFJson) (K : KV σ) (b : Bytes) (w : World σ)
    (h : (kvStore.DeleteR J K b w).1.Status.Code ≠ 200) :
    (kvStore.Delete J K b w).1.2 ≠ none := by
  unfold kvStore.Delete
  simp only
  split
  · simp
  · simp [h]

theorem Get_world {σ : Type} (J : FFJson) (K : KV σ) (b : Bytes) (w : World σ) :
    (kvStore.Get J K b w).2.kv = (kvStore.GetR J K b w).2.kv := by
  unfold kvStore.Get
  simp only
  split
  · simp [World.Observe, World.Errorf]
  · split <;> simp [World.Observe]

theorem Set_world {σ : Type} (J : FFJson) (K : KV σ) (b : Bytes) (w : World σ) :
    (kvStore.Set J K b w).2.kv = (kvStore.SetR J K b w).2.kv := by
  unfold kvStore.Set
  simp only
  split
  · simp [World.Observe, World.Errorf]
  · split <;> simp [World.Observe]

theorem Delete_world {σ : Type} (J : FFJson) (K : KV σ) (b : Bytes) (w : World σ) :
    (kvStore.Delete J K b w).2.kv = (kvStore.DeleteR J K b w).2.kv := by
  unfold kvStore.Delete
  simp only
  split
  · simp [World.Observe, World.Errorf]
  · split <;> simp [World.Observe]

theorem SetR_of_bad_data {σ : Type} (J : FFJson) (K : KV σ) (b : Bytes) (w : World σ)
    (e : Bytes) (hdata : (base64.DecodeString (J.UnmarshalSet b).1.Data).2 = some e) :
    kvStore.SetR J K b w
      = ({ Status := { Code := 400, Status := lit "Unable to decode data - " ++ e } }, w) := by
  unfold kvStore.SetR
  simp [hdata]

/-- C4: when the `data` of the request of `Set` is not valid standard base64
(in particular when the request itself was decoded without error), the
response has code 400 and the message of the base64 error, the callback
returns a non-nil error, and the store is not used: its state is unchanged
and the outcome is the same over every store. -/
theorem C4_set_bad_base64 {σ : Type} (J : FFJson) (K : KV σ) (b : Bytes) (w : World σ)
    (hdata : (base64.DecodeString (J.UnmarshalSet b).1.Data).2 ≠ none) :
    (kvStore.SetR J K b w).1.Status.Code = 400 ∧
    (∃ e, (base64.DecodeString (J.UnmarshalSet b).1.Data).2 = some e ∧
      (kvStore.SetR J K b w).1.Status.Status = lit "Unable to decode data - " ++ e) ∧
    (kvStore.Set J K b w).1.2 ≠ none ∧
    (kvStore.Set J K b w).2.kv = w.kv ∧
    ∀ K1 : KV σ, kvStore.Set J K1 b w = kvStore.Set J K b w := by
  obtain ⟨e, he⟩ := exists_of_ne_none _ hdata
  have hR : ∀ K1 : KV σ, kvStore.SetR J K1 b w
      = ({ Status := { Code := 400, Status := lit "Unable to decode data - " ++ e } }, w) :=
    fun K1 => SetR_of_bad_data J K1 b w e he
  refine ⟨by rw [hR K], ⟨e, he, by rw [hR K]⟩, ?_, by rw [Set_world, hR K], ?_⟩
  · apply Set_err_ne_none_of_code
    rw [hR K]
    simp
  · intro K1
    unfold kvStore.Set
    rw [hR K1, hR K]

/-- C4, witness: the request with the data `!!` is decoded without error, `Set`
answers with code 400 and the empty in-memory store stays empty. -/
theorem C4_witness :
    (refFFJson.UnmarshalSet Sample.setBad).2 = none ∧
      (kvStore.SetR refFFJson memKV Sample.setBad Sample.world).1.Status.Code = 400 ∧
      (kvStore.Set refFFJson memKV Sample.setBad Sample.world).2.kv = [] :=
  ⟨by decide,
    (C4_set_bad_base64 refFFJson memKV Sample.setBad Sample.world (by decide)).1,
    (C4_set_bad_base64 refFFJson memKV Sample.setBad Sample.world (by decide)).2.2.2.1⟩

theorem Json.valid_nil : Json.valid [] = false := by decide

theorem ne_nil_of_valid (buf : Bytes) (h : Json.valid buf = true) : buf ≠ [] := by
  intro hnil
  rw [hnil, Json.valid_nil] at h
  exact Bool.noConfusion h

theorem Get_of_marshal_ok {σ : Type} (J : FFJson) (K : KV σ) (b : Bytes) (w : World σ)
    (hm : (J.MarshalGet (kvStore.GetR J K b w).1).2 = none) :
    (kvStore.Get J K b w).1
      = ((J.MarshalGet (kvStore.GetR J K b w).1).1,
          if (kvStore.GetR J K b w).1.Status.Code = 200 then none
          else some (kvStore.GetR J K b w).1.Status.Status) := by
  unfold kvStore.Get
  simp only [hm]
  split <;> rfl

theorem Set_of_marshal_ok {σ : Type} (J : FFJson) (K : KV σ) (b : Bytes) (w : World σ)
    (hm : (J.MarshalSet (kvStore.SetR J K b w).1).2 = none) :
    (kvStore.Set J K b w).1
      = ((J.MarshalSet (kvStore.SetR J K b w).1).1,
          if (kvStore.SetR J K b w).1.Status.Code = 200 then none
          else some (kvStore.SetR J K b w).1.Status.Status) := by
  unfold kvStore.Set
  simp only [hm]
  split <;> rfl

theorem Delete_of_marshal_ok {σ : Type} (J : FFJson) (K : KV σ) (b : Bytes) (w : World σ)
    (hm : (J.MarshalDelete (kvStore.DeleteR J K b w).1).2 = none) :
    (kvStore.Delete J K b w).1
      = ((J.MarshalDelete (kvStore.DeleteR J K b w).1).1,
          if (kvStore.DeleteR J K b w).1.Status.Code = 200 then none
          else some (kvStore.DeleteR J K b w).1.Status.Status) := by
  unfold kvStore.Delete
  simp only [hm]
  split <;> rfl

theorem Keys_of_marshal_ok {σ : Type} (J : FFJson) (K : KV σ) (b : Bytes) (w : World σ)
    (hm : (J.MarshalKeys (kvStore.KeysR K b w).1).2 = none) :
    (kvStore.Keys J K b w).1
      = ((J.MarshalKeys (kvStore.KeysR K b w).1).1,
          if (kvStore.KeysR K b w).1.Status.Code = 200 then none
          else some (kvStore.KeysR K b w).1.Status.Status) := by
  unfold kvStore.Keys
  simp only [hm]
  split <;> rfl

theorem GetR_of_unmarshal_err {σ : Type} (J : FFJson) (K : KV σ) (b : Bytes) (w : World σ)
    (h : (J.UnmarshalGet b).2 ≠ none) :
    kvStore.GetR J K b w
      = ({ Status := { Code := 400, Status := lit "Error Parsing Input" }, Data := [] }, w) := by
  unfold kvStore.GetR
  simp [h]

theorem DeleteR_of_unmarshal_err {σ : Type} (J : FFJson) (K : KV σ) (b : Bytes) (w : World σ)
    (h : (J.UnmarshalDelete b).2 ≠ none) :
    kvStore.DeleteR J K b w
      = ({ Status := { Code := 400, Status := lit "Error Parsing Input" } }, w) := by
  unfold kvStore.DeleteR
  simp [h]

theorem SetR_of_unmarshal_err {σ : Type} (J : FFJson) (K : KV σ) (b : Bytes) (w : World σ)
    (h : (J.UnmarshalSet b).2 ≠ none) :
    (kvStore.SetR J K b w).1.Status.Code = 400 ∧ (kvStore.SetR J K b w).2 = w := by
  unfold kvStore.SetR
  simp only
  cases (base64.DecodeString (J.UnmarshalSet b).1.Data).2 <;> simp [h]

/-- C6: over a store that fails to delete a key it does not hold and a JSON
library that marshals the responses, `Delete` with a request decoded without
error to a key the store does not hold returns the marshalled response with
code 404, whose message carries the key and the error of the store, together
with that message as a non-nil error; the returned buffer is valid JSON. -/
theorem C6_delete_missing_key {σ : Type} (J : FFJson) (hJ : J.Lawful) (K : KV σ)
    (live : σ → List Bytes) (hK : K.Contract live) (key b : Bytes) (w : World σ)
    (hreq : J.UnmarshalDelete b = ({ Key := key }, none))
    (hmiss : key ∉ live w.kv) :
    (kvStore.DeleteR J K b w).1.Status.Code = 404 ∧
    (∃ e, (K.Delete key w.kv).1 = some e ∧
      (kvStore.DeleteR J K b w).1.Status.Status
        = lit "Unable to delete key " ++ key ++ lit " - " ++ e ∧
      (kvStore.Delete J K b w).1
        = ((J.MarshalDelete
              { Status := { Code := 404,
                            Status := lit "Unable to delete key " ++ key ++ lit " - " ++ e } }).1,
            some (lit "Unable to delete key " ++ key ++ lit " - " ++ e))) ∧
    (kvStore.Delete J K b w).1.2 ≠ none ∧
    Json.valid (kvStore.Delete J K b w).1.1 = true := by
  obtain ⟨e, he⟩ := exists_of_ne_none _ (hK.delete_missing key w.kv hmiss)
  have hR : (kvStore.DeleteR J K b w).1
      = { Status := { Code := 404, Status := lit "Unable to delete key " ++ key ++ lit " - " ++ e } } := by
    unfold kvStore.DeleteR
    simp [hreq, he]
  have hm := hJ.marshalDelete_ok (kvStore.DeleteR J K b w).1
  have hD := Delete_of_marshal_ok J K b w hm.1
  refine ⟨by rw [hR], ⟨e, he, by rw [hR], ?_⟩, ?_, ?_⟩
  · rw [hD, hR]
    simp
  · apply Delete_err_ne_none_of_code
    rw [hR]
    simp
  · rw [hD]
    exact hm.2

/-- C6, witness: over the empty in-memory store and the reference library,
`Delete` of the key `a` returns the JSON text of the 404 response and its
message as the error. -/
theorem C6_witness :
    (kvStore.DeleteR refFFJson memKV Sample.keyA Sample.world).1.Status.Code = 404 ∧
      (kvStore.Delete refFFJson memKV Sample.keyA Sample.world).1
        = (lit "\x7b\"status\":\x7b\"code\":404,\"status\":\"Unable to delete key a - key not found\"\x7d\x7d",
            some (lit "Unable to delete key a - key not found")) ∧
      Json.valid (kvStore.Delete refFFJson memKV Sample.keyA Sample.world).1.1 = true :=
  ⟨(C6_delete_missing_key refFFJson refFFJson_lawful memKV memKV.live memKV_contract (lit "a")
      Sample.keyA Sample.world (by decide) (by decide)).1,
    by decide,
    (C6_delete_missing_key refFFJson refFFJson_lawful memKV memKV.live memKV_contract (lit "a")
      Sample.keyA Sample.world (by decide) (by decide)).2.2.2⟩

/-- C3, as amended: over a JSON library that reports an error on invalid JSON
and marshals the responses, for a request buffer that is not valid JSON:
each of `Get`, `Set` and `Delete` gives a response with code 400, a non-nil
error and a buffer that is not empty, and leaves the store as it was; `Keys`
returns a buffer that is not empty too, but does not decode the request:
when the listing of the store succeeds it answers with code 200 and a nil
error, and when the listing fails with code 500 and a non-nil error. -/
theorem C3_invalid_json_is_400 {σ : Type} (J : FFJson) (hJ : J.Lawful) (K : KV σ) (b : Bytes)
    (w : World σ) (hb : Json.valid b = false) :
    ((kvStore.GetR J K b w).1.Status = { Code := 400, Status := lit "Error Parsing Input" } ∧
      (kvStore.Get J K b w).1.2 = some (lit "Error Parsing Input") ∧
      (kvStore.Get J K b w).1.1 ≠ [] ∧ (kvStore.Get J K b w).2.kv = w.kv) ∧
    ((kvStore.SetR J K b w).1.Status.Code = 400 ∧
      (kvStore.Set J K b w).1.2 = some (kvStore.SetR J K b w).1.Status.Status ∧
      (kvStore.Set J K b w).1.1 ≠ [] ∧ (kvStore.Set J K b w).2.kv = w.kv) ∧
    ((kvStore.DeleteR J K b w).1.Status = { Code := 400, Status := lit "Error Parsing Input" } ∧
      (kvStore.Delete J K b w).1.2 = some (lit "Error Parsing Input") ∧
      (kvStore.Delete J K b w).1.1 ≠ [] ∧ (kvStore.Delete J K b w).2.kv = w.kv) ∧
    ((kvStore.Keys J K b w).1.1 ≠ [] ∧
      (kvStore.Keys J K b w).1.1 = (J.MarshalKeys (kvStore.KeysR K b w).1).1 ∧
      ((K.Keys w.kv).1.2 = none →
        (kvStore.KeysR K b w).1.Status = { Code := 200, Status := lit "OK" } ∧
        (kvStore.Keys J K b w).1.2 = none) ∧
      (∀ e, (K.Keys w.kv).1.2 = some e →
        (kvStore.KeysR K b w).1.Status.Code = 500 ∧
        (kvStore.Keys J K b w).1.2 = some (lit "Unable to fetch keys - " ++ e))) := by
  refine ⟨?_, ?_, ?_, ?_⟩
  · have hR := GetR_of_unmarshal_err J K b w (hJ.unmarshalGet_invalid b hb)
    have hm := hJ.marshalGet_ok (kvStore.GetR J K b w).1
    have hG := Get_of_marshal_ok J K b w hm.1
    refine ⟨by rw [hR], ?_, ?_, by rw [Get_world, hR]⟩
    · rw [hG, hR]; simp
    · rw [hG]; exact ne_nil_of_valid _ hm.2
  · have hR := SetR_of_unmarshal_err J K b w (hJ.unmarshalSet_invalid b hb)
    have hm := hJ.marshalSet_ok (kvStore.SetR J K b w).1
    have hS := Set_of_marshal_ok J K b w hm.1
    refine ⟨hR.1, ?_, ?_, by rw [Set_world, hR.2]⟩
    · rw [hS, hR.1]; simp
    · rw [hS]; exact ne_nil_of_valid _ hm.2
  · have hR := DeleteR_of_unmarshal_err J K b w (hJ.unmarshalDelete_invalid b hb)
    have hm := hJ.marshalDelete_ok (kvStore.DeleteR J K b w).1
    have hD := Delete_of_marshal_ok J K b w hm.1
    refine ⟨by rw [hR], ?_, ?_, by rw [Delete_world, hR]⟩
    · rw [hD, hR]; simp
    · rw [hD]; exact ne_nil_of_valid _ hm.2
  · have hm := hJ.marshalKeys_ok (kvStore.KeysR K b w).1
    have hG := Keys_of_marshal_ok J K b w hm.1
    refine ⟨?_, by rw [hG], ?_, ?_⟩
    · rw [hG]; exact ne_nil_of_valid _ hm.2
    · intro hok
      have hR : (kvStore.KeysR K b w).1.Status = { Code := 200, Status := lit "OK" } := by
        unfold kvStore.KeysR
        simp [hok]
      refine ⟨hR, ?_⟩
      rw [hG, hR]
      simp
    · intro e he
      have hR : (kvStore.KeysR K b w).1.Status
          = { Code := 500, Status := lit "Unable to fetch keys - " ++ e } := by
        unfold kvStore.KeysR
        simp [he]
      refine ⟨by rw [hR], ?_⟩
      rw [hG, hR]
      simp

/-- C3, witness: over the reference library, the buffer `not json` gives code 400
from `Get`, a buffer that is not empty from `Set`, the parsing error from
`Delete`, and a buffer that is not empty from `Keys`. -/
theorem C3_witness :
    (kvStore.GetR refFFJson memKV Sample.notJson Sample.world).1.Status
        = { Code := 400, Status := lit "Error Parsing Input" } ∧
      (kvStore.Set refFFJson memKV Sample.notJson Sample.world).1.1 ≠ [] ∧
      (kvStore.Delete refFFJson memKV Sample.notJson Sample.worldWithA).1.2
        = some (lit "Error Parsing Input") ∧
      (kvStore.Keys refFFJson memKV Sample.notJson Sample.worldWithA).1.1 ≠ [] :=
  ⟨(C3_invalid_json_is_400 refFFJson refFFJson_lawful memKV Sample.notJson Sample.world
      (by decide)).1.1,
    (C3_invalid_json_is_400 refFFJson refFFJson_lawful memKV Sample.notJson Sample.world
      (by decide)).2.1.2.2.1,
    (C3_invalid_json_is_400 refFFJson refFFJson_lawful memKV Sample.notJson Sample.worldWithA
      (by decide)).2.2.1.2.1,
    (C3_invalid_json_is_400 refFFJson refFFJson_lawful memKV Sample.notJson Sample.worldWithA
      (by decide)).2.2.2.1⟩

/-- C3, counterexample: the buffer `not json` is not valid JSON, and `Keys`
called with it over the empty in-memory store answers with code 200 and a nil
error. -/
theorem C3_counterexample_keys_ignores_buffer :
    Json.valid Sample.notJson = false ∧
    (kvStore.KeysR memKV Sample.notJson Sample.world).1.Status.Code
      = 200 ∧
    (kvStore.Keys refFFJson memKV Sample.notJson Sample.world).1.2
      = none := by
  decide

theorem DeleteR_of_request {σ : Type} (J : FFJson) (K : KV σ) (key b : Bytes) (w : World σ)
    (hreq : J.UnmarshalDelete b = ({ Key := key }, none)) :
    kvStore.DeleteR J K b w
      = (match (K.Delete key w.kv).1 with
          | some e =>
            { Status := { Code := 404,
                          Status := lit "Unable to delete key " ++ key ++ lit " - " ++ e } }
          | none => { Status := { Code := 200, Status := lit "OK" } },
         { w with kv := (K.Delete key w.kv).2 }) := by
  unfold kvStore.DeleteR
  simp [hreq]

theorem GetR_of_request {σ : Type} (J : FFJson) (K : KV σ) (key b : Bytes) (w : World σ)
    (hreq : J.UnmarshalGet b = ({ Key := key }, none)) :
    kvStore.GetR J K b w
      = ({ Status :=
            match (K.Get key w.kv).1.2 with
            | some e =>
              { Code := 404, Status := lit "Unable to fetch key " ++ key ++ lit " - " ++ e }
            | none => { Code := 200, Status := lit "OK" },
           Data := base64.EncodeToString (K.Get key w.kv).1.1 },
         { w with kv := (K.Get key w.kv).2 }) := by
  unfold kvStore.GetR
  simp only [hreq]
  cases h : (K.Get key w.kv).1.2 <;> simp [h]

theorem SetR_of_request {σ : Type} (J : FFJson) (K : KV σ) (key data bytes b : Bytes)
    (w : World σ) (hreq : J.UnmarshalSet b = ({ Key := key, Data := data }, none))
    (hdata : base64.DecodeString data = (bytes, none)) :
    kvStore.SetR J K b w
      = (match (K.Set key bytes w.kv).1 with
          | some e =>
            { Status := { Code := 500,
                          Status := lit "Unable to store data using key " ++ key ++ lit " - " ++ e } }
          | none => { Status := { Code := 200, Status := lit "OK" } },
         { w with kv := (K.Set key bytes w.kv).2 }) := by
  unfold kvStore.SetR
  simp [hreq, hdata]

theorem live_after_Delete {σ : Type} (J : FFJson) (K : KV σ) (live : σ → List Bytes)
    (hK : K.Contract live) (key b : Bytes) (w : World σ)
    (hreq : J.UnmarshalDelete b = ({ Key := key }, none))
    (hok : (kvStore.DeleteR J K b w).1.Status.Code = 200) :
    key ∉ live (kvStore.Delete J K b w).2.kv := by
  rw [Delete_world, DeleteR_of_request J K key b w hreq]
  rw [DeleteR_of_request J K key b w hreq] at hok
  cases h : (K.Delete key w.kv).1 with
  | some e => rw [h] at hok; simp at hok
  | none => exact hK.delete_removes key w.kv h

theorem SetR_of_code_200 {σ : Type} (J : FFJson) (K : KV σ) (b : Bytes) (w : World σ)
    (hok : (kvStore.SetR J K b w).1.Status.Code = 200) :
    (K.Set (J.UnmarshalSet b).1.Key (base64.DecodeString (J.UnmarshalSet b).1.Data).1 w.kv).1
        = none ∧
      (kvStore.SetR J K b w).2.kv
        = (K.Set (J.UnmarshalSet b).1.Key (base64.DecodeString (J.UnmarshalSet b).1.Data).1
            w.kv).2 := by
  unfold kvStore.SetR at hok ⊢
  simp only at hok ⊢
  by_cases h1 : (J.UnmarshalSet b).2 = none <;>
    cases h2 : (base64.DecodeString (J.UnmarshalSet b).1.Data).2 <;>
    cases h3 : (K.Set (J.UnmarshalSet b).1.Key
      (base64.DecodeString (J.UnmarshalSet b).1.Data).1 w.kv).1 <;>
    simp_all

theorem live_after_Set {σ : Type} (J : FFJson) (K : KV σ) (live : σ → List Bytes)
    (hK : K.Contract live) (b : Bytes) (w : World σ)
    (hok : (kvStore.SetR J K b w).1.Status.Code = 200) :
    (J.UnmarshalSet b).1.Key ∈ live (kvStore.Set J K b w).2.kv := by
  have h := SetR_of_code_200 J K b w hok
  rw [Set_world, h.2]
  exact hK.set_adds _ _ _ h.1

/-- C5: over a store that fails to fetch a key it does not hold, and a JSON
library that marshals the responses, when the key is not held (it was never
set, or the world is the one left by a `Delete` callback of that key that
answered 200), `Get` with a request decoded without error to that key gives a
response with code 404 whose message carries the key and the error of the store, a
non-nil error with that message, and a buffer that is valid JSON. -/
theorem C5_get_missing_key {σ : Type} (J : FFJson) (hJ : J.Lawful) (K : KV σ)
    (live : σ → List Bytes) (hK : K.Contract live) (key b : Bytes) (w : World σ)
    (hreq : J.UnmarshalGet b = ({ Key := key }, none))
    (hmiss : key ∉ live w.kv ∨
      ∃ (w0 : World σ) (b0 : Bytes), J.UnmarshalDelete b0 = ({ Key := key }, none) ∧
        (kvStore.DeleteR J K b0 w0).1.Status.Code = 200 ∧ w = (kvStore.Delete J K b0 w0).2) :
    ∃ e, (K.Get key w.kv).1.2 = some e ∧
      (kvStore.GetR J K b w).1.Status
        = { Code := 404, Status := lit "Unable to fetch key " ++ key ++ lit " - " ++ e } ∧
      (kvStore.Get J K b w).1.2 = some (lit "Unable to fetch key " ++ key ++ lit " - " ++ e) ∧
      (kvStore.Get J K b w).1.1 = (J.MarshalGet (kvStore.GetR J K b w).1).1 ∧
      Json.valid (kvStore.Get J K b w).1.1 = true := by
  have hnot : key ∉ live w.kv := by
    rcases hmiss with h | ⟨w0, b0, h0, h200, hw⟩
    · exact h
    · rw [hw]; exact live_after_Delete J K live hK key b0 w0 h0 h200
  obtain ⟨e, he⟩ := exists_of_ne_none _ (hK.get_missing key w.kv hnot)
  have hm := hJ.marshalGet_ok (kvStore.GetR J K b w).1
  have hG := Get_of_marshal_ok J K b w hm.1
  have hR : (kvStore.GetR J K b w).1.Status
      = { Code := 404, Status := lit "Unable to fetch key " ++ key ++ lit " - " ++ e } := by
    rw [GetR_of_request J K key b w hreq]
    simp [he]
  refine ⟨e, he, hR, ?_, by rw [hG], by rw [hG]; exact hm.2⟩
  rw [hG, hR]
  simp

/-- C5, witness: over the in-memory store, `Get` of the key `a` answers 404 on the
empty store, and again after `a` was deleted from a store that held it. -/
theorem C5_witness :
    (∃ e, (memKV.Get (lit "a") Sample.world.kv).1.2 = some e ∧
      (kvStore.GetR refFFJson memKV Sample.keyA Sample.world).1.Status
        = { Code := 404, Status := lit "Unable to fetch key " ++ lit "a" ++ lit " - " ++ e }) ∧
    (∃ e, (kvStore.Get refFFJson memKV Sample.keyA
        (kvStore.Delete refFFJson memKV Sample.keyA Sample.worldWithA).2).1.2
        = some (lit "Unable to fetch key " ++ lit "a" ++ lit " - " ++ e)) := by
  obtain ⟨e, h1, h2, _⟩ := C5_get_missing_key refFFJson refFFJson_lawful memKV memKV.live
    memKV_contract (lit "a") Sample.keyA Sample.world (by decide) (Or.inl (by decide))
  obtain ⟨e1, _, _, h3, _⟩ := C5_get_missing_key refFFJson refFFJson_lawful memKV memKV.live
    memKV_contract (lit "a") Sample.keyA
    (kvStore.Delete refFFJson memKV Sample.keyA Sample.worldWithA).2 (by decide)
    (Or.inr ⟨Sample.worldWithA, Sample.keyA, by decide, by decide, rfl⟩)
  exact ⟨⟨e, h1, h2⟩, ⟨e1, h3⟩⟩

/-- C7: over a store whose successful listing gives the keys it holds, in
order, and a JSON library that marshals the responses: when the listing
succeeds `Keys` answers with code 200, a nil error and exactly the keys held,
in that order; a key set by a `Set` callback that answered 200 is held
afterwards and a key deleted by a `Delete` callback that answered 200 is not;
when the listing fails `Keys` answers with code 500 and a non-nil error
carrying the error of the store. -/
theorem C7_keys_lists_live_keys {σ : Type} (J : FFJson) (hJ : J.Lawful) (K : KV σ)
    (live : σ → List Bytes) (hK : K.Contract live) (b : Bytes) (w : World σ) :
    ((K.Keys w.kv).1.2 = none →
      (kvStore.KeysR K b w).1 = { Status := { Code := 200, Status := lit "OK" },
                                  Keys := live w.kv } ∧
      (kvStore.Keys J K b w).1
        = ((J.MarshalKeys { Status := { Code := 200, Status := lit "OK" },
                            Keys := live w.kv }).1, none)) ∧
    (∀ e, (K.Keys w.kv).1.2 = some e →
      (kvStore.KeysR K b w).1.Status
        = { Code := 500, Status := lit "Unable to fetch keys - " ++ e } ∧
      (kvStore.Keys J K b w).1.2 = some (lit "Unable to fetch keys - " ++ e)) ∧
    (∀ b1 : Bytes, (kvStore.SetR J K b1 w).1.Status.Code = 200 →
      (J.UnmarshalSet b1).1.Key ∈ live (kvStore.Set J K b1 w).2.kv) ∧
    (∀ key b1 : Bytes, J.UnmarshalDelete b1 = ({ Key := key }, none) →
      (kvStore.DeleteR J K b1 w).1.Status.Code = 200 →
      key ∉ live (kvStore.Delete J K b1 w).2.kv) := by
  have hm := hJ.marshalKeys_ok (kvStore.KeysR K b w).1
  have hG := Keys_of_marshal_ok J K b w hm.1
  refine ⟨?_, ?_, fun b1 h => live_after_Set J K live hK b1 w h,
    fun key b1 hreq h => live_after_Delete J K live hK key b1 w hreq h⟩
  · intro hok
    have hR : (kvStore.KeysR K b w).1
        = { Status := { Code := 200, Status := lit "OK" }, Keys := live w.kv } := by
      unfold kvStore.KeysR
      simp [hok, hK.keys_lists w.kv hok]
    refine ⟨hR, ?_⟩
    rw [hG, hR]
    simp
  · intro e he
    have hR : (kvStore.KeysR K b w).1.Status
        = { Code := 500, Status := lit "Unable to fetch keys - " ++ e } := by
      unfold kvStore.KeysR
      simp [he]
    refine ⟨hR, ?_⟩
    rw [hG, hR]
    simp

/-- C7, witness: over the in-memory store holding `a`, `Keys` lists `a`; `a` is held
after a `Set` and not after a `Delete`; over the unreachable store `Keys` returns
the error of the listing. -/
theorem C7_witness :
    (kvStore.KeysR memKV [] Sample.worldWithA).1
        = { Status := { Code := 200, Status := lit "OK" }, Keys := [lit "a"] } ∧
      lit "a" ∈ memKV.live (kvStore.Set refFFJson memKV Sample.setA Sample.world).2.kv ∧
      lit "a" ∉ memKV.live (kvStore.Delete refFFJson memKV Sample.keyA Sample.worldWithA).2.kv ∧
      (kvStore.Keys refFFJson downKV [] Sample.worldDown).1.2
        = some (lit "Unable to fetch keys - " ++ lit "connection refused") :=
  ⟨((C7_keys_lists_live_keys refFFJson refFFJson_lawful memKV memKV.live memKV_contract []
      Sample.worldWithA).1 rfl).1,
    (C7_keys_lists_live_keys refFFJson refFFJson_lawful memKV memKV.live memKV_contract []
      Sample.world).2.2.1 Sample.setA (by decide),
    (C7_keys_lists_live_keys refFFJson refFFJson_lawful memKV memKV.live memKV_contract []
      Sample.worldWithA).2.2.2 (lit "a") Sample.keyA (by decide) (by decide),
    ((C7_keys_lists_live_keys refFFJson refFFJson_lawful downKV (fun _ => []) downKV_contract []
      Sample.worldDown).2.1 (lit "connection refused") rfl).2⟩

/-- C2: over a store that keeps what is set and a JSON library that marshals
the responses, for every key and every byte sequence: `Set` with a request
decoded to the key and the standard base64 of the bytes returns the
marshalled response with code 200 and a nil error; `Get` with a request
decoded to the key, called next, returns the marshalled response with code 200
whose `data` is the standard base64 of the bytes, and a nil error; and that
`data` decodes from base64 to the bytes. -/
theorem C2_set_then_get {σ : Type} (J : FFJson) (hJ : J.Lawful) (K : KV σ)
    (hK : K.KeepsWhatIsSet) (key bytes bSet bGet : Bytes) (w : World σ)
    (hset : J.UnmarshalSet bSet = ({ Key := key, Data := base64.EncodeToString bytes }, none))
    (hget : J.UnmarshalGet bGet = ({ Key := key }, none)) :
    (kvStore.SetR J K bSet w).1.Status.Code = 200 ∧
    (kvStore.Set J K bSet w).1.2 = none ∧
    (kvStore.GetR J K bGet (kvStore.Set J K bSet w).2).1.Status.Code = 200 ∧
    (kvStore.Get J K bGet (kvStore.Set J K bSet w).2).1.2 = none ∧
    base64.DecodeString (kvStore.GetR J K bGet (kvStore.Set J K bSet w).2).1.Data
      = (bytes, none) ∧
    (kvStore.Get J K bGet (kvStore.Set J K bSet w).2).1.1
      = (J.MarshalGet { Status := { Code := 200, Status := lit "OK" },
                        Data := base64.EncodeToString bytes }).1 ∧
    (kvStore.Set J K bSet w).1
      = ((J.MarshalSet { Status := { Code := 200, Status := lit "OK" } }).1, none) ∧
    (kvStore.Get J K bGet (kvStore.Set J K bSet w).2).1
      = ((J.MarshalGet { Status := { Code := 200, Status := lit "OK" },
                         Data := base64.EncodeToString bytes }).1, none) ∧
    Json.valid (kvStore.Set J K bSet w).1.1 = true ∧
    Json.valid (kvStore.Get J K bGet (kvStore.Set J K bSet w).2).1.1 = true := by
  have hS := SetR_of_request J K key _ bytes bSet w hset (base64.DecodeString_EncodeToString bytes)
  have hk := hK key bytes w.kv
  have hS1 : (kvStore.SetR J K bSet w).1 = { Status := { Code := 200, Status := lit "OK" } } := by
    rw [hS]; simp [hk.1]
  have hw : (kvStore.Set J K bSet w).2.kv = (K.Set key bytes w.kv).2 := by
    rw [Set_world, hS]
  have hmS := hJ.marshalSet_ok (kvStore.SetR J K bSet w).1
  have hSet := Set_of_marshal_ok J K bSet w hmS.1
  have hG := GetR_of_request J K key bGet (kvStore.Set J K bSet w).2 hget
  have hG1 : (kvStore.GetR J K bGet (kvStore.Set J K bSet w).2).1
      = { Status := { Code := 200, Status := lit "OK" },
          Data := base64.EncodeToString bytes } := by
    rw [hG, hw]; simp [hk.2]
  have hmG := hJ.marshalGet_ok (kvStore.GetR J K bGet (kvStore.Set J K bSet w).2).1
  have hGet := Get_of_marshal_ok J K bGet (kvStore.Set J K bSet w).2 hmG.1
  refine ⟨by rw [hS1], ?_, by rw [hG1], ?_, ?_, ?_, ?_, ?_, ?_, ?_⟩
  · rw [hSet, hS1]; simp
  · rw [hGet, hG1]; simp
  · rw [hG1]; exact base64.DecodeString_EncodeToString bytes
  · rw [hGet, hG1]
  · rw [hSet, hS1]; simp
  · rw [hGet, hG1]; simp
  · rw [hSet]; exact hmS.2
  · rw [hGet]; exact hmG.2

/-- C2, witness: over the reference library and the in-memory store, `Set` of
`hi` under the key `a` returns the JSON text of the 200 response, `Get` of `a`
returns the JSON text of the 200 response with the data `aGk=`, both with a nil
error, and that data decodes to `hi`. -/
theorem C2_witness :
    (kvStore.Set refFFJson memKV Sample.setA Sample.world).1
        = (lit "\x7b\"status\":\x7b\"code\":200,\"status\":\"OK\"\x7d\x7d", none) ∧
      (kvStore.Get refFFJson memKV Sample.keyA
          (kvStore.Set refFFJson memKV Sample.setA Sample.world).2).1
        = (lit "\x7b\"status\":\x7b\"code\":200,\"status\":\"OK\"\x7d,\"data\":\"aGk=\"\x7d",
            none) ∧
      base64.DecodeString (kvStore.GetR refFFJson memKV Sample.keyA
        (kvStore.Set refFFJson memKV Sample.setA Sample.world).2).1.Data = (lit "hi", none) :=
  ⟨by decide, by decide,
    (C2_set_then_get refFFJson refFFJson_lawful memKV memKV_keeps (lit "a") (lit "hi")
      Sample.setA Sample.keyA Sample.world (by decide) (by decide)).2.2.2.2.1⟩

theorem teapot_roundtrip :
    base64.EncodeToString (base64.DecodeString (lit "aSBhbSBhIGxpdHRsZSB0ZWFwb3Q=")).1
      = lit "aSBhbSBhIGxpdHRsZSB0ZWFwb3Q=" := by
  decide

/-- C9, as amended: when `fastjson` parses the envelope without error, its
`payload` is valid standard base64 and every host call-out succeeds,
`Handler` returns a nil error and the envelope with code 200 and status
`Success` whose payload is the standard base64 of the decoded bytes; that
payload decodes to the same bytes; the two call-outs, to the logger and to
`kvstore` `set`, were made; and for the payload
`aSBhbSBhIGxpdHRsZSB0ZWFwb3Q=` the payload returned is that string. -/
theorem C9_handler_returns_payload {V τ : Type} (F : FastJson V)
    (H : Call → τ → (Bytes × Option Bytes) × τ) (payload : Bytes) (g : Guest τ) (rq : V)
    (bytes : Bytes) (hparse : F.ParseBytes payload = Except.ok rq)
    (hpay : base64.DecodeString (F.GetStringBytes rq (lit "payload")) = (bytes, none))
    (hhost : ∀ c h, (H c h).1.2 = none) :
    (Handler F H payload g).1
      = (lit "\x7b\"payload\":\"" ++ base64.EncodeToString bytes
          ++ lit "\",\"status\":\x7b\"code\":200,\"status\":\"Success\"\x7d\x7d", none) ∧
    base64.DecodeString (base64.EncodeToString bytes) = (bytes, none) ∧
    (Handler F H payload g).2.calls
      = g.calls ++ [⟨lit "tarmac", lit "logger", lit "debug", payload⟩,
          ⟨lit "tarmac", lit "kvstore", lit "set", Handler.setRequest⟩] ∧
    (F.GetStringBytes rq (lit "payload") = lit "aSBhbSBhIGxpdHRsZSB0ZWFwb3Q=" →
      base64.EncodeToString bytes = lit "aSBhbSBhIGxpdHRsZSB0ZWFwb3Q=") := by
  refine ⟨?_, base64.DecodeString_EncodeToString bytes, ?_, ?_⟩
  · unfold Handler
    simp [hparse, hpay, HostCall, hhost]
  · unfold Handler
    simp [hparse, hpay, HostCall, hhost]
  · intro h
    rw [h] at hpay
    have hb : bytes = (base64.DecodeString (lit "aSBhbSBhIGxpdHRsZSB0ZWFwb3Q=")).1 := by
      rw [hpay]
    rw [hb]
    exact teapot_roundtrip

/-- C9, witness: with a host on which every call-out succeeds, the handler returns
the teapot envelope with code 200. -/
theorem C9_witness :
    (Handler refFastJson okHost Sample.envelope Sample.guest).1
      = (lit "\x7b\"payload\":\"" ++ base64.EncodeToString (lit "i am a little teapot")
          ++ lit "\",\"status\":\x7b\"code\":200,\"status\":\"Success\"\x7d\x7d", none) :=
  (C9_handler_returns_payload refFastJson okHost Sample.envelope Sample.guest
    (Json.Value.object [(lit "payload", Json.Value.string (lit "aSBhbSBhIGxpdHRsZSB0ZWFwb3Q="))])
    (lit "i am a little teapot") (by rfl) (by decide) (fun _ _ => rfl)).1

/-- C9, counterexample: the envelope with the payload `aGk=` and a member
holding three hundred nested arrays is valid JSON and its payload is valid
standard base64, yet over a parser with the nesting limit of `fastjson` and a
host on which every call-out succeeds `Handler` does not return the envelope
with code 200: the parser refuses the envelope, the buffer returned is the
envelope with code 500 of a parsing failure, and no call-out is made. -/
theorem C9_counterexample_deep_envelope :
    Json.valid Sample.deepEnvelope = true ∧
    (Json.parse Sample.deepEnvelope).map (fun v => refFastJson.GetStringBytes v (lit "payload"))
      = some (lit "aGk=") ∧
    base64.DecodeString (lit "aGk=") = (lit "hi", none) ∧
    (refFastJson.ParseBytes Sample.deepEnvelope).toOption.isNone = true ∧
    (Handler refFastJson okHost Sample.deepEnvelope Sample.guest).1
      ≠ (lit "\x7b\"payload\":\"aGk=\",\"status\":\x7b\"code\":200,\"status\":\"Success\"\x7d\x7d",
          none) ∧
    (Handler refFastJson okHost Sample.deepEnvelope Sample.guest).1.1.take 60
      = lit "\x7b\"status\":\x7b\"code\":500,\"status\":\"Failed to call parse json - " ∧
    (Handler refFastJson okHost Sample.deepEnvelope Sample.guest).1.2 = none ∧
    (Handler refFastJson okHost Sample.deepEnvelope Sample.guest).2.calls = [] := by
  decide

/-- C10: on every input and whatever the host answers, `Handler` returns a nil
error. When the call-out to the logger fails, the handler returns the
envelope with code 500 carrying that error and has made that call-out only;
when the call-out to `kvstore` `set` fails, it returns the envelope with code
500 carrying that error, after these two call-outs. -/
theorem C10_handler_error_is_in_band {V τ : Type} (F : FastJson V)
    (H : Call → τ → (Bytes × Option Bytes) × τ) (payload : Bytes) (g : Guest τ) :
    (Handler F H payload g).1.2 = none ∧
    (∀ (rq : V) (bytes e : Bytes), F.ParseBytes payload = Except.ok rq →
      base64.DecodeString (F.GetStringBytes rq (lit "payload")) = (bytes, none) →
      (H ⟨lit "tarmac", lit "logger", lit "debug", payload⟩ g.host).1.2 = some e →
      (Handler F H payload g).1.1
        = lit "\x7b\"status\":\x7b\"code\":500,\"status\":\"Failed to call host callback - "
            ++ e ++ lit "\"\x7d\x7d" ∧
      (Handler F H payload g).2.calls
        = g.calls ++ [⟨lit "tarmac", lit "logger", lit "debug", payload⟩]) ∧
    (∀ (rq : V) (bytes e : Bytes), F.ParseBytes payload = Except.ok rq →
      base64.DecodeString (F.GetStringBytes rq (lit "payload")) = (bytes, none) →
      (H ⟨lit "tarmac", lit "logger", lit "debug", payload⟩ g.host).1.2 = none →
      (H ⟨lit "tarmac", lit "kvstore", lit "set", Handler.setRequest⟩
        (H ⟨lit "tarmac", lit "logger", lit "debug", payload⟩ g.host).2).1.2 = some e →
      (Handler F H payload g).1.1
        = lit "\x7b\"status\":\x7b\"code\":500,\"status\":\"Failed to call host callback - "
            ++ e ++ lit "\"\x7d\x7d" ∧
      (Handler F H payload g).2.calls
        = g.calls ++ [⟨lit "tarmac", lit "logger", lit "debug", payload⟩,
            ⟨lit "tarmac", lit "kvstore", lit "set", Handler.setRequest⟩]) := by
  refine ⟨?_, ?_, ?_⟩
  · unfold Handler
    simp only
    split
    · rfl
    · split
      · rfl
      · split
        · rfl
        · split <;> rfl
  · intro rq bytes e hparse hpay h1
    unfold Handler
    simp [hparse, hpay, HostCall, h1]
  · intro rq bytes e hparse hpay h1 h2
    unfold Handler
    simp [hparse, hpay, HostCall, h1, h2]

/-- C10, witness: when the logger is unavailable the handler makes that call-out
only; when `kvstore` is unavailable it returns the envelope with code 500 carrying
the error. -/
theorem C10_witness :
    (Handler refFastJson (failingHost (lit "logger")) Sample.envelope Sample.guest).2.calls
        = [⟨lit "tarmac", lit "logger", lit "debug", Sample.envelope⟩] ∧
      (Handler refFastJson (failingHost (lit "kvstore")) Sample.envelope Sample.guest).1.1
        = lit "\x7b\"status\":\x7b\"code\":500,\"status\":\"Failed to call host callback - "
            ++ lit "capability unavailable" ++ lit "\"\x7d\x7d" :=
  ⟨((C10_handler_error_is_in_band refFastJson (failingHost (lit "logger")) Sample.envelope
      Sample.guest).2.1
      (Json.Value.object
        [(lit "payload", Json.Value.string (lit "aSBhbSBhIGxpdHRsZSB0ZWFwb3Q="))])
      (lit "i am a little teapot") (lit "capability unavailable") (by rfl) (by decide)
      (by decide)).2,
    ((C10_handler_error_is_in_band refFastJson (failingHost (lit "kvstore")) Sample.envelope
      Sample.guest).2.2
      (Json.Value.object
        [(lit "payload", Json.Value.string (lit "aSBhbSBhIGxpdHRsZSB0ZWFwb3Q="))])
      (lit "i am a little teapot") (lit "capability unavailable") (by rfl) (by decide)
      (by decide) (by decide)).1⟩

end Tarmac
